import Mathlib

/-!
Verification of the Synchronization & Prioritization Engine of the
student task-aggregation backend (`src/backend`).

The Python source is shallowly embedded:
* `schema.py` enums become inductive types; the persisted `Task` row and the
  normalized task dictionary produced by the connectors become structures.
* Timezone-aware instants are modelled as integers (seconds); the source
  normalizes naive datetimes to UTC before arithmetic, so a single integer
  timeline is faithful.  `datetime.max` (used as the "missing due date" sort
  key) is modelled by an explicit null-last key component.
* The database session is a list of rows; SQLAlchemy queries become filters.
  Note that SQLAlchemy compiles `Column == None` to `IS NULL`, so the upsert
  lookup `Task.source_id == task_data.get("source_id")` matches null against
  null; equality of `Option String` models exactly that.
* The normalized dict of `CanvasIntegration.normalize_task` et al. has no
  `status` key, and only the calendar connectors emit a `start_date` key;
  the update loop `for key, value in task_data.items()` only touches keys
  present in the dict, which the `has_start_date` flag records.
-/

namespace Backend

inductive TaskStatus where
  | pending
  | complete
  | overdue
deriving DecidableEq, Repr

inductive TaskType where
  | assignment
  | meeting
  | internship
  | manual
  | email
deriving DecidableEq, Repr

inductive SourceType where
  | canvas
  | outlook
  | google_calendar
  | handshake
  | manual
deriving DecidableEq, Repr

/-- A persisted `tasks` row (`schema.py`, class `Task`).  The server-managed
`id`/`created_at`/`updated_at` columns play no role in the verified logic and
are omitted. -/
structure Task where
  user_id : Nat
  title : String
  description : Option String
  task_type : TaskType
  status : TaskStatus
  source_type : SourceType
  source_id : Option String
  due_date : Option Int
  start_date : Option Int
  priority : Int
  task_metadata : Option String
deriving DecidableEq, Repr

/-- The normalized task dictionary produced by a connector's `normalize_*`
method (plus the `user_id` entry set by `fetch_tasks`).  `has_start_date`
records whether the dict carries a `"start_date"` key at all: only the
calendar normalizers emit one, and the upsert's `items()` loop only writes
keys that are present. -/
structure TaskData where
  user_id : Nat
  title : String
  description : String
  task_type : TaskType
  source_type : SourceType
  source_id : Option String
  due_date : Option Int
  has_start_date : Bool
  start_date : Option Int
  priority : Int
  task_metadata : String
deriving DecidableEq, Repr

/-- The WHERE clause of the upsert lookup in `IntegrationManager.sync_user_tasks`:
`Task.user_id == user_id, Task.source_id == task_data.get("source_id"),
Task.source_type == task_data.get("source_type")`.  SQLAlchemy renders a
comparison against the Python value `None` as `IS NULL`, hence plain
`Option` equality. -/
def SameKey (u : Nat) (d : TaskData) (t : Task) : Prop :=
  t.user_id = u ∧ t.source_id = d.source_id ∧ t.source_type = d.source_type

instance (u : Nat) (d : TaskData) (t : Task) : Decidable (SameKey u d t) := by
  unfold SameKey; infer_instance

/-- The update branch of the upsert: `for key, value in task_data.items():
if key != "user_id" and hasattr(existing_task, key): setattr(...)`.
Every key of the normalized dict except `user_id` is written; `status` is
not a key of the dict, so it is never written; `start_date` is written only
when the dict carries that key. -/
def upd (t : Task) (d : TaskData) : Task :=
  { t with
    title := d.title
    description := some d.description
    task_type := d.task_type
    source_type := d.source_type
    source_id := d.source_id
    due_date := d.due_date
    start_date := if d.has_start_date then d.start_date else t.start_date
    priority := d.priority
    task_metadata := some d.task_metadata }

/-- The insert branch of the upsert: `DataFetcher.create_task(...)`.
`status` takes the column default `pending`; `start_date` is
`task_data.get("start_date")`, i.e. `None` when the key is absent. -/
def newTask (d : TaskData) : Task :=
  { user_id := d.user_id
    title := d.title
    description := some d.description
    task_type := d.task_type
    status := TaskStatus.pending
    source_type := d.source_type
    source_id := d.source_id
    due_date := d.due_date
    start_date := if d.has_start_date then d.start_date else none
    priority := d.priority
    task_metadata := some d.task_metadata }

/-- `db.query(Task).filter(...).first() is not None`. -/
def existsMatch (u : Nat) (S : List Task) (d : TaskData) : Bool :=
  S.any fun t => decide (SameKey u d t)

/-- Updating the row returned by `.first()`: the first matching row of the
store, in place. -/
def updateFirst (u : Nat) (S : List Task) (d : TaskData) : List Task :=
  match S with
  | [] => []
  | t :: ts => if SameKey u d t then upd t d :: ts else t :: updateFirst u ts d

/-- One iteration of the reconcile loop of `sync_user_tasks` for a single
normalized record: update the existing row if the identity-key lookup finds
one, otherwise insert a fresh row. -/
def reconcileOne (u : Nat) (S : List Task) (d : TaskData) : List Task :=
  if existsMatch u S d then updateFirst u S d else S ++ [newTask d]

/-- The whole reconcile loop (`for task_data in all_tasks: ...`) over a batch
of normalized records. -/
def reconcile (u : Nat) (S : List Task) (B : List TaskData) : List Task :=
  B.foldl (reconcileOne u) S

/-- Two rows collide on the reconciliation identity key: same user, same
non-null `source_id`, same `source_type`. -/
def dupKey (a b : Task) : Prop :=
  a.user_id = b.user_id ∧ a.source_id = b.source_id ∧ a.source_id.isSome ∧
    a.source_type = b.source_type

instance (a b : Task) : Decidable (dupKey a b) := by
  unfold dupKey; infer_instance

/-- The data-model invariant: for a given `(user_id, source, non-null
external_id)` at most one row exists. -/
def StoreInv (S : List Task) : Prop :=
  S.Pairwise fun a b => ¬ dupKey a b

instance (S : List Task) : Decidable (StoreInv S) := by
  unfold StoreInv; exact List.instDecidablePairwise S

/-! ### models.py: DataFetcher queries -/

/-- SQL `Task.due_date < now` (a NULL due date compares to nothing). -/
def dueBefore (due : Option Int) (now : Int) : Prop :=
  match due with
  | some d => d < now
  | none => False

instance (due : Option Int) (now : Int) : Decidable (dueBefore due now) := by
  unfold dueBefore; cases due <;> infer_instance

/-- Sort-key component: 0 for a present due date, 1 for NULL.  Models both the
`NULLS LAST` default of `ORDER BY due_date ASC` and the `datetime.max`
fallback in the summarizer's sort key. -/
def dueNullKey (t : Task) : Nat :=
  match t.due_date with
  | some _ => 0
  | none => 1

def dueValKey (t : Task) : Int := t.due_date.getD 0

/-- Ordering used by `DataFetcher.get_tasks`:
`order_by(Task.due_date.asc(), Task.priority.desc())`. -/
def fetchLE (a b : Task) : Prop :=
  dueNullKey a < dueNullKey b ∨ (dueNullKey a = dueNullKey b ∧
    (dueValKey a < dueValKey b ∨ (dueValKey a = dueValKey b ∧
      -a.priority ≤ -b.priority)))

instance : DecidableRel fetchLE := by
  intro a b; unfold fetchLE; infer_instance

instance : IsTotal Task fetchLE := by
  constructor; intro a b; unfold fetchLE; omega

instance : IsTrans Task fetchLE := by
  constructor; intro a b c; unfold fetchLE; omega

/-- `DataFetcher.get_tasks(db, user_id, status=None)`: the user's rows,
optionally filtered by status, ordered by due date ascending (nulls last)
then priority descending.  The SQL result order on full ties is modelled by
a stable sort over the store order. -/
def getTasks (S : List Task) (u : Nat) (status : Option TaskStatus) : List Task :=
  let q := S.filter fun t => decide (t.user_id = u)
  let q :=
    match status with
    | some st => q.filter fun t => decide (t.status = st)
    | none => q
  List.insertionSort fetchLE q

/-- `DataFetcher.get_overdue_tasks`: user's rows with status `pending` and
`due_date < now`. -/
def getOverdueTasks (S : List Task) (u : Nat) (now : Int) : List Task :=
  S.filter fun t =>
    decide (t.user_id = u) && decide (t.status = TaskStatus.pending) &&
      decide (dueBefore t.due_date now)

/-- `DataFetcher.get_high_priority_tasks(db, user_id, hours)`: status
`pending` and `now <= due_date <= now + hours` (hours in seconds here). -/
def getHighPriorityTasks (S : List Task) (u : Nat) (now : Int) (hours : Int) :
    List Task :=
  S.filter fun t =>
    decide (t.user_id = u) && decide (t.status = TaskStatus.pending) &&
      (match t.due_date with
       | some d => decide (now ≤ d) && decide (d ≤ now + hours * 3600)
       | none => false)

/-! ### summarizer.py: TaskSummarizer.summarize_tasks -/

/-- The lazy overdue transition of `summarize_tasks`: each task of the
overdue query result (user's, status `pending`, `due_date < now`) has its
status set to `overdue`.  The Python loop mutates the shared ORM objects;
since the same objects sit in `pending_tasks` and `overdue_tasks`, the flip
is applied uniformly to the store and to both lists. -/
def flipOverdue (u : Nat) (now : Int) (t : Task) : Task :=
  if t.user_id = u ∧ t.status = TaskStatus.pending ∧ dueBefore t.due_date now
  then { t with status := TaskStatus.overdue }
  else t

/-- `tasks_by_source`: a Python dict counting pending tasks per
`source_type.value`, insertion-ordered by first occurrence. -/
def bump (l : List (SourceType × Nat)) (s : SourceType) : List (SourceType × Nat) :=
  match l with
  | [] => [(s, 1)]
  | (k, n) :: tl => if k = s then (k, n + 1) :: tl else (k, n) :: bump tl s

def countBySource (ts : List Task) : List (SourceType × Nat) :=
  ts.foldl (fun acc t => bump acc t.source_type) []

/-- First component of the summarizer's sort key
`(0 if overdue else 1, due_date or datetime.max, -priority)`. -/
def ovKey (t : Task) : Nat :=
  if t.status = TaskStatus.overdue then 0 else 1

/-- The comparison of two summarizer sort keys, on the inputs where it does
not raise.  Python's tuple comparison decides at the status component when
the two differ; with equal status components it compares the due
components, which raises `TypeError` when exactly one of them is the naive
`datetime.max` fallback (an aware due date is never equal to, and cannot be
ordered against, the naive maximum) — that raising case is carved out by
`sortMixed` below, so within the non-raising domain the null-component of
the key never decides. -/
def sortLE (a b : Task) : Prop :=
  ovKey a < ovKey b ∨ (ovKey a = ovKey b ∧
    (dueNullKey a < dueNullKey b ∨ (dueNullKey a = dueNullKey b ∧
      (dueValKey a < dueValKey b ∨ (dueValKey a = dueValKey b ∧
        -a.priority ≤ -b.priority)))))

instance : DecidableRel sortLE := by
  intro a b; unfold sortLE; infer_instance

instance : IsTotal Task sortLE := by
  constructor; intro a b; unfold sortLE; omega

instance : IsTrans Task sortLE := by
  constructor; intro a b c; unfold sortLE; omega

/-- The condition under which the summarizer's `sorted(...)` call raises.
The stored due dates are timezone-aware (`DateTime(timezone=True)` on
Postgres) while the `datetime.max` fallback for a missing due date is
offset-naive; Python's tuple comparison reaches the due component exactly
when the status components are equal, and ordering an aware instant against
the naive maximum raises `TypeError` (their equality test is merely
`False`).  A comparison sort must order every pair inside a status group,
so the call raises precisely when some status group holds both a dated and
an undated task. -/
def sortMixed (l : List Task) : Bool :=
  l.any fun a => l.any fun b =>
    ovKey a == ovKey b && a.due_date.isNone && b.due_date.isSome

instance {ε α : Type} [DecidableEq ε] [DecidableEq α] :
    DecidableEq (Except ε α) := fun a b =>
  match a, b with
  | Except.error e, Except.error f =>
    if h : e = f then Decidable.isTrue (by rw [h])
    else Decidable.isFalse (by intro hc; cases hc; exact h rfl)
  | Except.error _, Except.ok _ => Decidable.isFalse (by intro hc; cases hc)
  | Except.ok _, Except.error _ => Decidable.isFalse (by intro hc; cases hc)
  | Except.ok x, Except.ok y =>
    if h : x = y then Decidable.isTrue (by rw [h])
    else Decidable.isFalse (by intro hc; cases hc; exact h rfl)

/-- `sorted(pending_tasks + overdue_tasks, key=...)`: raises `TypeError` on
a mixed status group, otherwise the stable sort by the key tuple. -/
def pySorted (l : List Task) : Except Unit (List Task) :=
  if sortMixed l then Except.error ()
  else Except.ok (List.insertionSort sortLE l)

/-- The `TaskSummary` response (`schema.py`); `tasks` holds the ordered
records.  (`TaskResponse.model_validate` projects away `task_metadata`;
the embedding keeps whole rows.) -/
structure TaskSummary where
  total_tasks : Nat
  pending_tasks : Nat
  overdue_tasks : Nat
  high_priority_tasks : Nat
  tasks_by_source : List (SourceType × Nat)
  tasks : List Task
deriving DecidableEq, Repr

/-- `TaskSummarizer.summarize_tasks`, returning the mutated store (the side
effect of the overdue flip) together with the summary.  Mirrors the source
line by line: the pending filter and the counts are computed before the
status mutation; the sorted list is computed after it, and concatenates
`pending_tasks + overdue_tasks` (the overdue rows are members of both).
The overdue flip is committed row by row before the sort, so the mutated
store is returned even when the sort raises; the `TypeError` of the sort
(see `sortMixed`) propagates to the caller as the `error` payload. -/
def summarizeTasks (S : List Task) (u : Nat) (now : Int) :
    List Task × Except Unit TaskSummary :=
  let all_tasks := getTasks S u none
  let pending_tasks := all_tasks.filter fun t => decide (t.status = TaskStatus.pending)
  let overdue_tasks := getOverdueTasks S u now
  let high_priority_tasks := getHighPriorityTasks S u now 48
  let tasks_by_source := countBySource pending_tasks
  let store := S.map (flipOverdue u now)
  let pending := pending_tasks.map (flipOverdue u now)
  let overdue := overdue_tasks.map (flipOverdue u now)
  (store,
    match pySorted (pending ++ overdue) with
    | Except.error e => Except.error e
    | Except.ok sorted_tasks =>
      Except.ok
        { total_tasks := all_tasks.length
          pending_tasks := pending_tasks.length
          overdue_tasks := overdue_tasks.length
          high_priority_tasks := high_priority_tasks.length
          tasks_by_source := tasks_by_source
          tasks := sorted_tasks })

/-- The list handed to the summarizer's sort: the flipped pending rows
followed by the flipped overdue rows. -/
def summarizeList (S : List Task) (u : Nat) (now : Int) : List Task :=
  ((getTasks S u none).filter fun t =>
      decide (t.status = TaskStatus.pending)).map (flipOverdue u now) ++
    (getOverdueTasks S u now).map (flipOverdue u now)

/-! ### summarizer.py: TaskSummarizer.get_plain_language_summary -/

/-- Python's plural suffix `'s' if n > 1 else ''`. -/
def pluralS (n : Nat) : String :=
  if n > 1 then "s" else ""

/-- `source.replace("_", " ").title()` evaluated on the five possible
`SourceType.value` strings. -/
def sourceDisplayName : SourceType → String
  | SourceType.canvas => "Canvas"
  | SourceType.outlook => "Outlook"
  | SourceType.google_calendar => "Google Calendar"
  | SourceType.handshake => "Handshake"
  | SourceType.manual => "Manual"

def overdueClause (n : Nat) : String :=
  toString n ++ " overdue task" ++ pluralS n

def highPriorityClause (n : Nat) : String :=
  toString n ++ " task" ++ pluralS n ++ " due within 48 hours"

def pendingClause (n : Nat) : String :=
  toString n ++ " pending task" ++ pluralS n ++ " total"

def bySourceClause (bySrc : List (SourceType × Nat)) : String :=
  "Tasks: " ++ String.intercalate ", "
    (bySrc.map fun p => toString p.2 ++ " from " ++ sourceDisplayName p.1)

/-- `TaskSummarizer.get_plain_language_summary`: calls `summarize_tasks`
(so a `TypeError` raised by its sort propagates uncaught), then builds the
`parts` list with one conditional append per aggregate, joins with `". "`
and a trailing period, or returns the fixed all-caught-up sentence when
`parts` is empty. -/
def getPlainLanguageSummary (S : List Task) (u : Nat) (now : Int) :
    Except Unit String :=
  match (summarizeTasks S u now).2 with
  | Except.error e => Except.error e
  | Except.ok summary =>
    let parts : List String :=
      (if summary.overdue_tasks > 0 then [overdueClause summary.overdue_tasks] else []) ++
      (if summary.high_priority_tasks > 0 then [highPriorityClause summary.high_priority_tasks] else []) ++
      (if summary.pending_tasks > 0 then [pendingClause summary.pending_tasks] else []) ++
      (if summary.tasks_by_source.isEmpty then []
       else [bySourceClause summary.tasks_by_source])
    Except.ok
      (if parts.isEmpty then "No pending tasks. You\x27re all caught up!"
       else String.intercalate ". " parts ++ ".")

/-! ### summarizer.py: TaskSummarizer.get_weekly_summary -/

inductive WeekBucket where
  | thisWeek
  | nextWeek
  | later
deriving DecidableEq, Repr

/-- The day-delta `(due_date - now).days` of the weekly loop; Python's
`timedelta.days` is a floor division of the total seconds.  The computation
sits in a broad `try`, so it is modelled as fallible: an exception while
computing the delta is an `error`. -/
def bucketOfDelta : Except Unit Int → WeekBucket
  | Except.error _ => WeekBucket.later
  | Except.ok days =>
    if days < 0 then WeekBucket.thisWeek
    else if days < 7 then WeekBucket.thisWeek
    else if days < 14 then WeekBucket.nextWeek
    else WeekBucket.later

/-- Classification of one pending task in `get_weekly_summary`: no due date
goes to "later" before the `try`; otherwise bucket by the day-delta.  For an
integer instant the delta computation always succeeds. -/
def weeklyClassify (t : Task) (now : Int) : WeekBucket :=
  match t.due_date with
  | none => WeekBucket.later
  | some d => bucketOfDelta (Except.ok ((d - now).fdiv 86400))

/-- The loop of `get_weekly_summary`, appending each task to its bucket in
list order. -/
def weeklyLoop (now : Int) : List Task → List Task × List Task × List Task
  | [] => ([], [], [])
  | t :: ts =>
    let r := weeklyLoop now ts
    match weeklyClassify t now with
    | WeekBucket.thisWeek => (t :: r.1, r.2.1, r.2.2)
    | WeekBucket.nextWeek => (r.1, t :: r.2.1, r.2.2)
    | WeekBucket.later => (r.1, r.2.1, t :: r.2.2)

/-- `TaskSummarizer.get_weekly_summary`: buckets the user's pending tasks
into this week / next week / later. -/
def getWeeklySummary (S : List Task) (u : Nat) (now : Int) :
    List Task × List Task × List Task :=
  weeklyLoop now (getTasks S u (some TaskStatus.pending))

/-! ### integrations.py: connectors

Raw upstream payloads are embedded structurally.  `parser.parse` (dateutil)
is an opaque `String → Int` parameter; date values that reach normalization
already parsed are `Option Int`.  Python's float divisions
`total_seconds()/3600` and `/86400` are modelled as exact rational
divisions, which agree with IEEE doubles on whole-second inputs at these
thresholds. -/

/-- Python truthiness of an optional string: `None` and `""` are falsy. -/
def truthy : Option String → Bool
  | none => false
  | some s => !(s == "")

/-- Python `str(x)` for `x` an optional string: `str(None) = "None"`. -/
def pyStr : Option String → String
  | none => "None"
  | some s => s

/-- A raw Canvas assignment, with the course fields merged in by
`fetch_tasks`. -/
structure CanvasRaw where
  id : Option String
  name : Option String
  description : Option String
  due_at : Option String
  course_name : Option String
  course_id : Option Nat
deriving DecidableEq, Repr

def canvasDueDate (parse : String → Int) (raw : CanvasRaw) : Option Int :=
  if truthy raw.due_at then some (parse (raw.due_at.getD "")) else none

/-- The `json.dumps(metadata)` payload; serialized opaquely (its content is
never interpreted by the core logic). -/
def canvasMetadata (raw : CanvasRaw) : String :=
  "course_name=" ++ pyStr raw.course_name ++ ",course_id=" ++
    (match raw.course_id with
     | some n => toString n
     | none => "None")

/-- `CanvasIntegration.normalize_task`. -/
def canvasNormalizeTask (parse : String → Int) (raw : CanvasRaw) (now : Int)
    (st : SourceType) : TaskData :=
  let due_date := canvasDueDate parse raw
  let priority : Int :=
    match due_date with
    | none => 0
    | some d =>
      let hours_until_due : ℚ := ((d - now : Int) : ℚ) / 3600
      if hours_until_due < 24 then 3
      else if hours_until_due < 48 then 2
      else if hours_until_due < 168 then 1
      else 0
  { user_id := 0
    title := raw.name.getD "Untitled Assignment"
    description := raw.description.getD ""
    task_type := TaskType.assignment
    source_type := st
    source_id := some (pyStr raw.id)
    due_date := due_date
    has_start_date := false
    start_date := none
    priority := priority
    task_metadata := canvasMetadata raw }

/-- A course as consumed by `CanvasIntegration.fetch_tasks`;
`assignmentsResp = none` models a non-200 assignments response for that
course. -/
structure CanvasCourseFetch where
  id : Nat
  name : Option String
  assignmentsResp : Option (List CanvasRaw)
deriving DecidableEq, Repr

/-- `CanvasIntegration.fetch_tasks`: a non-200 courses response yields `[]`;
per course, a 200 assignments response contributes one normalized record per
assignment whose `due_at` is truthy, with `user_id` stamped on. -/
def canvasFetchTasks (parse : String → Int) (now : Int) (user_id : Nat)
    (coursesResp : Option (List CanvasCourseFetch)) : List TaskData :=
  match coursesResp with
  | none => []
  | some courses =>
    courses.flatMap fun c =>
      match c.assignmentsResp with
      | none => []
      | some as =>
        (as.filter fun a => truthy a.due_at).map fun a =>
          { canvasNormalizeTask parse
              { a with
                course_name := some (c.name.getD "Unknown Course")
                course_id := some c.id } now SourceType.canvas with
            user_id := user_id }

/-- A raw Outlook calendar event; `start`/`stop` are the parsed
`start.dateTime` / `end.dateTime` instants when present. -/
structure GraphEventRaw where
  id : Option String
  subject : Option String
  bodyPreview : Option String
  start : Option Int
  stop : Option Int
  locationName : Option String
  organizerName : Option String
  attendeesCount : Nat
deriving DecidableEq, Repr

def graphEventMetadata (raw : GraphEventRaw) : String :=
  "location=" ++ pyStr raw.locationName ++ ",organizer=" ++
    pyStr raw.organizerName ++ ",attendees_count=" ++ toString raw.attendeesCount

/-- `MicrosoftGraphIntegration.normalize_calendar_event`. -/
def graphNormalizeCalendarEvent (raw : GraphEventRaw) (now : Int)
    (st : SourceType) : TaskData :=
  let start_date := raw.start
  let due_date := raw.stop
  let priority : Int :=
    match start_date with
    | none => 0
    | some s =>
      let hours_until : ℚ := ((s - now : Int) : ℚ) / 3600
      if hours_until < 24 then 1 else 0
  { user_id := 0
    title := raw.subject.getD "Untitled Meeting"
    description := raw.bodyPreview.getD ""
    task_type := TaskType.meeting
    source_type := st
    source_id := raw.id
    due_date := due_date
    has_start_date := true
    start_date := start_date
    priority := priority
    task_metadata := graphEventMetadata raw }

/-- A raw Outlook mail message; `receivedDateTime` pre-parsed. -/
structure GraphMailRaw where
  id : Option String
  subject : Option String
  bodyPreview : Option String
  receivedDateTime : Option Int
  senderAddress : Option String
  senderName : Option String
  hasAttachments : Bool
deriving DecidableEq, Repr

def graphMailMetadata (raw : GraphMailRaw) : String :=
  "sender=" ++ pyStr raw.senderAddress ++ ",sender_name=" ++
    pyStr raw.senderName ++ ",has_attachments=" ++
    (if raw.hasAttachments then "true" else "false")

/-- `MicrosoftGraphIntegration.normalize_email`: keyword-matched
high-importance unread mail becomes an email task with fixed priority 2. -/
def graphNormalizeEmail (raw : GraphMailRaw) (st : SourceType) : TaskData :=
  { user_id := 0
    title := raw.subject.getD "Untitled Email"
    description := raw.bodyPreview.getD ""
    task_type := TaskType.email
    source_type := st
    source_id := raw.id
    due_date := raw.receivedDateTime
    has_start_date := false
    start_date := none
    priority := 2
    task_metadata := graphMailMetadata raw }

/-- A raw Handshake job posting; the application deadline is kept as the raw
optional string because the source checks its truthiness before parsing. -/
structure HandshakeRaw where
  id : Option String
  title : Option String
  description : Option String
  application_deadline : Option String
  employerName : Option String
  job_type : Option String
  locationName : Option String
deriving DecidableEq, Repr

def handshakeDeadline (parse : String → Int) (raw : HandshakeRaw) : Option Int :=
  if truthy raw.application_deadline
  then some (parse (raw.application_deadline.getD ""))
  else none

def handshakeMetadata (raw : HandshakeRaw) : String :=
  "employer=" ++ pyStr raw.employerName ++ ",job_type=" ++
    pyStr raw.job_type ++ ",location=" ++ pyStr raw.locationName

/-- `HandshakeIntegration.normalize_task`. -/
def handshakeNormalizeTask (parse : String → Int) (raw : HandshakeRaw)
    (now : Int) (st : SourceType) : TaskData :=
  let due_date := handshakeDeadline parse raw
  let priority : Int :=
    match due_date with
    | none => 1
    | some d =>
      let days_until : ℚ := ((d - now : Int) : ℚ) / 86400
      if days_until < 7 then 2 else 1
  { user_id := 0
    title := raw.title.getD "Untitled Job Posting"
    description := raw.description.getD ""
    task_type := TaskType.internship
    source_type := st
    source_id := some (pyStr raw.id)
    due_date := due_date
    has_start_date := false
    start_date := none
    priority := priority
    task_metadata := handshakeMetadata raw }

/-! ### integrations.py: IntegrationManager.sync_user_tasks -/

/-- An `oauth_tokens` row as far as the orchestrator reads it. -/
structure OAuthToken where
  access_token : String
  expires_at : Option Int
deriving DecidableEq, Repr

/-- `token.expires_at and token.expires_at < datetime.now(utc)`. -/
def tokenExpired (tok : OAuthToken) (now : Int) : Bool :=
  match tok.expires_at with
  | some e => decide (e < now)
  | none => false

/-- The candidate source set: all four, or the single requested one. -/
def sourcesFor : Option SourceType → List SourceType
  | some s => [s]
  | none => [SourceType.canvas, SourceType.outlook, SourceType.google_calendar,
             SourceType.handshake]

/-- The body of the per-source loop of `sync_user_tasks`: skip a source
with no token, skip an expired token, extend `all_tasks` on a successful
fetch, and swallow (log-and-continue) a fetch exception. -/
def syncFetchStep (token : SourceType → Option OAuthToken)
    (fetch : SourceType → Except String (List TaskData)) (now : Int)
    (acc : List TaskData) (source : SourceType) : List TaskData :=
  match token source with
  | none => acc
  | some tok =>
    if tokenExpired tok now then acc
    else
      match fetch source with
      | Except.ok ts => acc ++ ts
      | Except.error _ => acc

/-- `IntegrationManager.sync_user_tasks`.  `token` is the credential store
(`DataFetcher.get_oauth_token`); `fetch` is the per-source
`integration.fetch_tasks` call, whose records already carry `user_id`; an
`error` value models the exception caught by the per-source
`try/except`/`continue`.  The accumulated records are reconciled and the
pre-dedup count is returned. -/
def syncUserTasks (S : List Task) (u : Nat) (now : Int)
    (token : SourceType → Option OAuthToken)
    (fetch : SourceType → Except String (List TaskData))
    (scope : Option SourceType) : List Task × Nat :=
  let all_tasks := (sourcesFor scope).foldl (syncFetchStep token fetch now) []
  (reconcile u S all_tasks, all_tasks.length)

/-! ### Spec-side definitions

The following definitions transcribe sentences of the specification (not the
code); the refinement theorems below compare them with the embedded code. -/

/-- Modelled from the spec: "Assignment-type: due within 24h → 3; within
48h → 2; within 168h (7d) → 1; otherwise 0; no due date → 0", reading
"within N hours" as a due instant less than N hours after now. -/
def specAssignmentPriority (due : Option Int) (now : Int) : Int :=
  match due with
  | none => 0
  | some d =>
    if d - now < 24 * 3600 then 3
    else if d - now < 48 * 3600 then 2
    else if d - now < 168 * 3600 then 1
    else 0

/-- Modelled from the spec: "Calendar-meeting-type: starts within 24h → 1;
otherwise 0". -/
def specMeetingPriority (start : Option Int) (now : Int) : Int :=
  match start with
  | none => 0
  | some s => if s - now < 24 * 3600 then 1 else 0

/-- Modelled from the spec: "Job-posting-type: application deadline within
7 days → 2; otherwise 1; no deadline → 1". -/
def specJobPriority (deadline : Option Int) (now : Int) : Int :=
  match deadline with
  | none => 1
  | some d => if d - now < 7 * 86400 then 2 else 1

/-- A source the orchestrator will actually pull from: has a token that is
not expired. -/
def sourceEligible (token : SourceType → Option OAuthToken) (now : Int)
    (s : SourceType) : Bool :=
  match token s with
  | none => false
  | some tok => !tokenExpired tok now

/-- The records of a successful fetch (empty for a failed one). -/
def fetchedRecords (fetch : SourceType → Except String (List TaskData))
    (s : SourceType) : List TaskData :=
  match fetch s with
  | Except.ok ts => ts
  | Except.error _ => []

/-- Spec-side view of a sync pass: the concatenated batches of exactly the
eligible sources whose fetch succeeded. -/
def goodRecords (token : SourceType → Option OAuthToken)
    (fetch : SourceType → Except String (List TaskData)) (now : Int)
    (scope : Option SourceType) : List TaskData :=
  ((sourcesFor scope).filter fun s =>
      sourceEligible token now s && (fetch s).isOk).flatMap
    (fetchedRecords fetch)

/-- Spec-side clause list of the plain-language summary: one clause per
non-zero aggregate, in the fixed order overdue, high-priority, total
pending, per-source breakdown. -/
def specClauses (ov hi pe : Nat) (bySrc : List (SourceType × Nat)) : List String :=
  ([(ov, overdueClause ov), (hi, highPriorityClause hi),
    (pe, pendingClause pe)].filterMap fun p =>
      if p.1 = 0 then none else some p.2) ++
    (if bySrc.isEmpty then [] else [bySourceClause bySrc])

/-- Spec-side plain-language summary: the non-zero clauses joined with
". " and a trailing period, or the fixed sentence when there is nothing to
report. -/
def specPlainSummary (ov hi pe : Nat) (bySrc : List (SourceType × Nat)) : String :=
  let cls := specClauses ov hi pe bySrc
  if cls.isEmpty then "No pending tasks. You\x27re all caught up!"
  else String.intercalate ". " cls ++ "."

/-! ### Theorems -/

/-- Rational-division form of an "x within b units of c seconds" test. -/
lemma qdiv_lt_iff (x c b : Int) (hc : 0 < c) :
    ((x : ℚ) / (c : ℚ) < (b : ℚ)) ↔ x < b * c := by
  rw [div_lt_iff₀ (by exact_mod_cast hc)]
  exact_mod_cast Iff.rfl

lemma canvasNormalizeTask_priority (parse : String → Int) (cr : CanvasRaw)
    (now : Int) (st : SourceType) :
    (canvasNormalizeTask parse cr now st).priority =
      specAssignmentPriority (canvasDueDate parse cr) now := by
  show (match canvasDueDate parse cr with
      | none => (0 : Int)
      | some d =>
        let hours_until_due : ℚ := ((d - now : Int) : ℚ) / 3600
        if hours_until_due < 24 then 3
        else if hours_until_due < 48 then 2
        else if hours_until_due < 168 then 1
        else 0) = specAssignmentPriority (canvasDueDate parse cr) now
  cases canvasDueDate parse cr with
  | none => rfl
  | some d =>
    show (if ((d - now : Int) : ℚ) / 3600 < 24 then (3 : Int)
      else if ((d - now : Int) : ℚ) / 3600 < 48 then 2
      else if ((d - now : Int) : ℚ) / 3600 < 168 then 1 else 0) = _
    rw [show ((24 : ℚ)) = ((24 : Int) : ℚ) by norm_num,
      show ((48 : ℚ)) = ((48 : Int) : ℚ) by norm_num,
      show ((168 : ℚ)) = ((168 : Int) : ℚ) by norm_num,
      show ((3600 : ℚ)) = ((3600 : Int) : ℚ) by norm_num]
    simp only [qdiv_lt_iff _ _ _ (by norm_num : (0 : Int) < 3600)]
    rfl

lemma graphNormalizeCalendarEvent_priority (gr : GraphEventRaw) (now : Int)
    (st : SourceType) :
    (graphNormalizeCalendarEvent gr now st).priority =
      specMeetingPriority gr.start now := by
  show (match gr.start with
      | none => (0 : Int)
      | some s =>
        let hours_until : ℚ := ((s - now : Int) : ℚ) / 3600
        if hours_until < 24 then 1 else 0) = specMeetingPriority gr.start now
  cases gr.start with
  | none => rfl
  | some s =>
    show (if ((s - now : Int) : ℚ) / 3600 < 24 then (1 : Int) else 0) = _
    rw [show ((24 : ℚ)) = ((24 : Int) : ℚ) by norm_num,
      show ((3600 : ℚ)) = ((3600 : Int) : ℚ) by norm_num]
    simp only [qdiv_lt_iff _ _ _ (by norm_num : (0 : Int) < 3600)]
    rfl

lemma handshakeNormalizeTask_priority (parse : String → Int) (hr : HandshakeRaw)
    (now : Int) (st : SourceType) :
    (handshakeNormalizeTask parse hr now st).priority =
      specJobPriority (handshakeDeadline parse hr) now := by
  show (match handshakeDeadline parse hr with
      | none => (1 : Int)
      | some d =>
        let days_until : ℚ := ((d - now : Int) : ℚ) / 86400
        if days_until < 7 then 2 else 1) =
      specJobPriority (handshakeDeadline parse hr) now
  cases handshakeDeadline parse hr with
  | none => rfl
  | some d =>
    show (if ((d - now : Int) : ℚ) / 86400 < 7 then (2 : Int) else 1) = _
    rw [show ((7 : ℚ)) = ((7 : Int) : ℚ) by norm_num,
      show ((86400 : ℚ)) = ((86400 : Int) : ℚ) by norm_num]
    simp only [qdiv_lt_iff _ _ _ (by norm_num : (0 : Int) < 86400)]
    rfl

/-- C4.  Normalization reproduces the priority scoring table exactly at a
fixed now: assignments 3/2/1/0 by the 24h/48h/168h windows (0 with no due
date), calendar meetings 1 within 24h of the start else 0, keyword-matched
emails a fixed 2, job postings 2 within 7 days of the deadline else 1
(1 with no deadline). -/
theorem c4_priority_table (parse : String → Int) (now : Int) (st : SourceType)
    (cr : CanvasRaw) (gr : GraphEventRaw) (mr : GraphMailRaw) (hr : HandshakeRaw) :
    (canvasNormalizeTask parse cr now st).priority =
        specAssignmentPriority (canvasDueDate parse cr) now ∧
      (graphNormalizeCalendarEvent gr now st).priority =
        specMeetingPriority gr.start now ∧
      (graphNormalizeEmail mr st).priority = 2 ∧
      (handshakeNormalizeTask parse hr now st).priority =
        specJobPriority (handshakeDeadline parse hr) now :=
  ⟨canvasNormalizeTask_priority parse cr now st,
    graphNormalizeCalendarEvent_priority gr now st, rfl,
    handshakeNormalizeTask_priority parse hr now st⟩

/-- Spec-side "this week" test: day-delta negative, or less than 7. -/
def specThisWeek (now : Int) (t : Task) : Bool :=
  match t.due_date with
  | none => false
  | some d => decide ((d - now).fdiv 86400 < 0) || decide ((d - now).fdiv 86400 < 7)

/-- Spec-side "next week" test: not this week, day-delta less than 14. -/
def specNextWeek (now : Int) (t : Task) : Bool :=
  match t.due_date with
  | none => false
  | some d =>
    !(decide ((d - now).fdiv 86400 < 0) || decide ((d - now).fdiv 86400 < 7)) &&
      decide ((d - now).fdiv 86400 < 14)

/-- Spec-side "later" test: no due date, or day-delta at least 14. -/
def specLater (now : Int) (t : Task) : Bool :=
  match t.due_date with
  | none => true
  | some d => decide (14 ≤ (d - now).fdiv 86400)

lemma weeklyLoop_eq_filters (now : Int) (ts : List Task) :
    weeklyLoop now ts =
      (ts.filter (specThisWeek now), ts.filter (specNextWeek now),
        ts.filter (specLater now)) := by
  induction ts with
  | nil => rfl
  | cons t ts ih =>
    simp only [weeklyLoop, ih, List.filter_cons]
    cases hdue : t.due_date with
    | none => simp [weeklyClassify, specThisWeek, specNextWeek, specLater, hdue]
    | some d =>
      simp only [weeklyClassify, hdue, bucketOfDelta, specThisWeek, specNextWeek,
        specLater]
      by_cases h0 : (d - now).fdiv 86400 < 0 <;>
        by_cases h7 : (d - now).fdiv 86400 < 7 <;>
        by_cases h14 : (d - now).fdiv 86400 < 14 <;>
        simp [h0, h7, h14] <;>
        first
        | rfl
        | rw [if_neg (by omega)]
        | rw [if_pos (by omega)]

/-- C9.  The weekly summary buckets each pending record by the UTC day-delta
to its due date: negative or below 7 days goes to "this week", below 14 to
"next week", otherwise (including no due date) to "later"; and a record
whose delta computation raises is placed in "later" instead of failing the
summary. -/
theorem c9_weekly_bucketing (S : List Task) (u : Nat) (now : Int) :
    (getWeeklySummary S u now).1 =
        (getTasks S u (some TaskStatus.pending)).filter (specThisWeek now) ∧
      (getWeeklySummary S u now).2.1 =
        (getTasks S u (some TaskStatus.pending)).filter (specNextWeek now) ∧
      (getWeeklySummary S u now).2.2 =
        (getTasks S u (some TaskStatus.pending)).filter (specLater now) ∧
      bucketOfDelta (Except.error ()) = WeekBucket.later := by
  refine ⟨?_, ?_, ?_, rfl⟩ <;>
    simp [getWeeklySummary, weeklyLoop_eq_filters]

/-- C10.  The Canvas connector only emits records for assignments whose
`due_at` is truthy, so every assignment record it produces carries a due
date, and its priority is computed by the due-date branch of the assignment
rule (the "no due date → 0" branch is unreachable for Canvas-fetched
records). -/
theorem c10_canvas_fetch_due_present (parse : String → Int) (now : Int)
    (uid : Nat) (resp : Option (List CanvasCourseFetch)) (d : TaskData)
    (hd : d ∈ canvasFetchTasks parse now uid resp) :
    ∃ dd, d.due_date = some dd ∧
      d.priority = specAssignmentPriority (some dd) now := by
  cases resp with
  | none => simp [canvasFetchTasks] at hd
  | some courses =>
    simp only [canvasFetchTasks, List.mem_flatMap] at hd
    obtain ⟨c, _, hd⟩ := hd
    cases hresp : c.assignmentsResp with
    | none => rw [hresp] at hd; simp at hd
    | some as =>
      rw [hresp] at hd
      simp only [List.mem_map, List.mem_filter] at hd
      obtain ⟨a, ⟨_, hdue⟩, rfl⟩ := hd
      set raw : CanvasRaw :=
        { a with
          course_name := some (c.name.getD "Unknown Course")
          course_id := some c.id } with hraw
      have htruthy : truthy raw.due_at = true := hdue
      have hdd : canvasDueDate parse raw = some (parse (raw.due_at.getD "")) := by
        unfold canvasDueDate
        rw [htruthy]
        simp
      refine ⟨parse (raw.due_at.getD ""), ?_, ?_⟩
      · show (canvasNormalizeTask parse raw now SourceType.canvas).due_date = _
        unfold canvasNormalizeTask
        simpa using hdd
      · show (canvasNormalizeTask parse raw now SourceType.canvas).priority = _
        rw [canvasNormalizeTask_priority, hdd]

def c10parse : String → Int := fun _ => 1000

def c10raw : CanvasRaw :=
  { id := some "7", name := some "HW 1", description := none,
    due_at := some "2030-01-01", course_name := none, course_id := none }

def c10resp : Option (List CanvasCourseFetch) :=
  some [{ id := 5, name := some "Math", assignmentsResp := some [c10raw] }]

def c10elem : TaskData :=
  { canvasNormalizeTask c10parse
      { c10raw with course_name := some "Math", course_id := some 5 } 0
      SourceType.canvas with
    user_id := 3 }

theorem c10_witness :
    ∃ dd, c10elem.due_date = some dd ∧
      c10elem.priority = specAssignmentPriority (some dd) 0 :=
  c10_canvas_fetch_due_present c10parse 0 3 c10resp c10elem (by
    have h : canvasFetchTasks c10parse 0 3 c10resp = [c10elem] := rfl
    rw [h]
    exact List.mem_singleton_self _)

lemma updateFirst_length (u : Nat) (S : List Task) (d : TaskData) :
    (updateFirst u S d).length = S.length := by
  induction S with
  | nil => rfl
  | cons t ts ih =>
    unfold updateFirst
    split
    · rfl
    · simpa using ih

/-- A store row and a normalized record with null `source_id`, for the same
user and source: under SQLAlchemy's `IS NULL` rendering they match. -/
def tNull : Task :=
  { user_id := 1, title := "manual entry", description := none,
    task_type := TaskType.manual, status := TaskStatus.pending,
    source_type := SourceType.outlook, source_id := none, due_date := none,
    start_date := none, priority := 0, task_metadata := none }

def dNull : TaskData :=
  { user_id := 1, title := "event", description := "", task_type := TaskType.meeting,
    source_type := SourceType.outlook, source_id := none, due_date := none,
    has_start_date := true, start_date := none, priority := 0,
    task_metadata := "m" }

/-- C7, counterexample.  An incoming record with null `source_id` is *not*
always inserted as new: with a persisted row of the same user and source
whose `source_id` is null, the upsert takes the update branch (the store
keeps its single row) instead of the claimed insert branch. -/
theorem c7_null_external_id_counterexample :
    (reconcileOne 1 [tNull] dNull).length = 1 ∧
      reconcileOne 1 [tNull] dNull ≠ [tNull] ++ [newTask dNull] := by decide

/-- C7, amended.  SQLAlchemy compiles the comparison against `None` to
`IS NULL`, so an incoming record with null `source_id` matches any existing
row with null `source_id` for the same user and source: it is inserted as
new exactly when no such row exists, and otherwise updates the first such
row in place, leaving the store size unchanged. -/
theorem c7_null_external_id_amended (u : Nat) (S : List Task) (d : TaskData)
    (hnull : d.source_id = none) :
    (existsMatch u S d = false → reconcileOne u S d = S ++ [newTask d]) ∧
      (existsMatch u S d = true →
        reconcileOne u S d = updateFirst u S d ∧
          (reconcileOne u S d).length = S.length) ∧
      (existsMatch u S d = true ↔
        ∃ t ∈ S, t.user_id = u ∧ t.source_id = none ∧
          t.source_type = d.source_type) := by
  refine ⟨?_, ?_, ?_⟩
  · intro h
    unfold reconcileOne
    rw [h]
    rfl
  · intro h
    unfold reconcileOne
    rw [h]
    exact ⟨rfl, by simpa using updateFirst_length u S d⟩
  · simp [existsMatch, SameKey, hnull, List.any_eq_true]

theorem c7_witness :
    (existsMatch 1 [] dNull = false →
        reconcileOne 1 [] dNull = [] ++ [newTask dNull]) ∧
      (existsMatch 1 [] dNull = true →
        reconcileOne 1 [] dNull = updateFirst 1 [] dNull ∧
          (reconcileOne 1 [] dNull).length = ([] : List Task).length) ∧
      (existsMatch 1 [] dNull = true ↔
        ∃ t ∈ ([] : List Task), t.user_id = 1 ∧ t.source_id = none ∧
          t.source_type = dNull.source_type) :=
  c7_null_external_id_amended 1 [] dNull rfl

lemma syncFetchFold_eq (token : SourceType → Option OAuthToken)
    (fetch : SourceType → Except String (List TaskData)) (now : Int)
    (srcs : List SourceType) (acc : List TaskData) :
    srcs.foldl (syncFetchStep token fetch now) acc =
      acc ++ (srcs.filter fun s =>
        sourceEligible token now s && (fetch s).isOk).flatMap
        (fetchedRecords fetch) := by
  induction srcs generalizing acc with
  | nil => simp
  | cons s srcs ih =>
    simp only [List.foldl_cons, List.filter_cons]
    cases htok : token s with
    | none => simp [syncFetchStep, sourceEligible, htok, ih]
    | some tok =>
      cases hexp : tokenExpired tok now with
      | true => simp [syncFetchStep, sourceEligible, htok, hexp, ih]
      | false =>
        cases hf : fetch s with
        | ok ts =>
          simp [syncFetchStep, sourceEligible, fetchedRecords, htok, hexp, hf,
            ih, Except.isOk, Except.toBool]
        | error e =>
          simp [syncFetchStep, sourceEligible, htok, hexp, hf, ih,
            Except.isOk, Except.toBool]

/-- C5.  Partial-failure isolation: when one source's fetch raises, the sync
still reconciles the records of every successful eligible source into the
store, does not fail, and returns the pre-dedup count of exactly those
records; moreover the result does not depend on the failing source at
all. -/
theorem c5_partial_failure_isolation (S : List Task) (u : Nat) (now : Int)
    (token : SourceType → Option OAuthToken)
    (fetch fetch' : SourceType → Except String (List TaskData))
    (s0 : SourceType) (msg msg' : String)
    (hfail : fetch s0 = Except.error msg)
    (hagree : ∀ s, s ≠ s0 → fetch' s = fetch s)
    (hfail' : fetch' s0 = Except.error msg') :
    syncUserTasks S u now token fetch none =
        (reconcile u S (goodRecords token fetch now none),
          (goodRecords token fetch now none).length) ∧
      syncUserTasks S u now token fetch' none =
        syncUserTasks S u now token fetch none := by
  have hgood : ∀ srcs : List SourceType,
      (srcs.filter fun s =>
        sourceEligible token now s && (fetch' s).isOk).flatMap
          (fetchedRecords fetch') =
      (srcs.filter fun s =>
        sourceEligible token now s && (fetch s).isOk).flatMap
          (fetchedRecords fetch) := by
    intro srcs
    induction srcs with
    | nil => rfl
    | cons s srcs ih =>
      simp only [List.filter_cons]
      by_cases hs : s = s0
      · subst hs
        rw [hfail, hfail']
        have e1 : (Except.error msg : Except String (List TaskData)).isOk = false := rfl
        have e2 : (Except.error msg' : Except String (List TaskData)).isOk = false := rfl
        rw [e1, e2]
        simp only [Bool.and_false, Bool.false_eq_true, if_false]
        exact ih
      · have hfs : fetch' s = fetch s := hagree s hs
        have hfr : fetchedRecords fetch' s = fetchedRecords fetch s := by
          unfold fetchedRecords; rw [hfs]
        rw [hfs]
        by_cases hc : (sourceEligible token now s && (fetch s).isOk) = true
        · rw [if_pos hc, if_pos hc, List.flatMap_cons, List.flatMap_cons, ih, hfr]
        · rw [if_neg hc, if_neg hc]
          exact ih
  constructor
  · unfold syncUserTasks goodRecords
    rw [syncFetchFold_eq]
    simp
  · unfold syncUserTasks
    rw [syncFetchFold_eq, syncFetchFold_eq]
    simp only [List.nil_append]
    rw [hgood]

def c5token : SourceType → Option OAuthToken :=
  fun _ => some { access_token := "tok", expires_at := none }

def c5data : TaskData :=
  { user_id := 1, title := "a", description := "", task_type := TaskType.assignment,
    source_type := SourceType.canvas, source_id := some "42", due_date := none,
    has_start_date := false, start_date := none, priority := 0,
    task_metadata := "m" }

def c5fetch : SourceType → Except String (List TaskData) :=
  fun s =>
    match s with
    | SourceType.outlook => Except.error "boom"
    | SourceType.canvas => Except.ok [c5data]
    | _ => Except.ok []

def c5fetchAlt : SourceType → Except String (List TaskData) :=
  fun s =>
    match s with
    | SourceType.outlook => Except.error "other failure"
    | SourceType.canvas => Except.ok [c5data]
    | _ => Except.ok []

theorem c5_witness :
    syncUserTasks [] 1 0 c5token c5fetch none =
        (reconcile 1 [] (goodRecords c5token c5fetch 0 none),
          (goodRecords c5token c5fetch 0 none).length) ∧
      syncUserTasks [] 1 0 c5token c5fetchAlt none =
        syncUserTasks [] 1 0 c5token c5fetch none :=
  c5_partial_failure_isolation [] 1 0 c5token c5fetch c5fetchAlt
    SourceType.outlook "boom" "other failure" rfl
    (by intro s hs; cases s <;> first | rfl | exact absurd rfl hs) rfl

lemma updateFirst_map_status (u : Nat) (S : List Task) (d : TaskData) :
    (updateFirst u S d).map (fun x => x.status) = S.map (fun x => x.status) := by
  induction S with
  | nil => rfl
  | cons t ts ih =>
    unfold updateFirst
    split
    · rfl
    · simpa using ih

lemma reconcile_map_status (u : Nat) (B : List TaskData) (S : List Task) :
    ∃ k, (reconcile u S B).map (fun x => x.status) =
      S.map (fun x => x.status) ++ List.replicate k TaskStatus.pending := by
  induction B generalizing S with
  | nil => exact ⟨0, by simp [reconcile]⟩
  | cons d B ih =>
    have hstep : reconcile u S (d :: B) = reconcile u (reconcileOne u S d) B := rfl
    obtain ⟨k, hk⟩ := ih (reconcileOne u S d)
    rw [hstep, hk]
    unfold reconcileOne
    split
    · exact ⟨k, by rw [updateFirst_map_status]⟩
    · refine ⟨k + 1, ?_⟩
      rw [List.map_append]
      show _ ++ _ ++ _ = _ ++ List.replicate (k + 1) TaskStatus.pending
      rw [List.append_assoc]
      congr 1

/-- C2.  Sync never writes the status field: reconciling any batch leaves
the statuses of all pre-existing rows unchanged (appending only
`pending`-status inserts), and the update branch overwrites title,
description, due date, priority, metadata (and, when the normalized dict
carries the key, start date) while preserving `user_id` and `status` — so a
completed task is never resurrected by sync. -/
theorem c2_sync_never_writes_status (u : Nat) (S : List Task)
    (B : List TaskData) (t : Task) (d : TaskData) :
    (∃ k, (reconcile u S B).map (fun x => x.status) =
        S.map (fun x => x.status) ++ List.replicate k TaskStatus.pending) ∧
      (upd t d).status = t.status ∧
      (upd t d).user_id = t.user_id ∧
      (upd t d).title = d.title ∧
      (upd t d).description = some d.description ∧
      (upd t d).due_date = d.due_date ∧
      (upd t d).priority = d.priority ∧
      (upd t d).task_metadata = some d.task_metadata ∧
      (d.has_start_date = true → (upd t d).start_date = d.start_date) :=
  ⟨reconcile_map_status u B S, rfl, rfl, rfl, rfl, rfl, rfl, rfl,
    fun h => by simp [upd, h]⟩

theorem c2_witness :
    (∃ k, (reconcile 1 [tNull] [c5data]).map (fun x => x.status) =
        [tNull].map (fun x => x.status) ++ List.replicate k TaskStatus.pending) ∧
      (upd tNull dNull).status = tNull.status ∧
      (upd tNull dNull).user_id = tNull.user_id ∧
      (upd tNull dNull).title = dNull.title ∧
      (upd tNull dNull).description = some dNull.description ∧
      (upd tNull dNull).due_date = dNull.due_date ∧
      (upd tNull dNull).priority = dNull.priority ∧
      (upd tNull dNull).task_metadata = some dNull.task_metadata ∧
      (dNull.has_start_date = true → (upd tNull dNull).start_date = dNull.start_date) :=
  c2_sync_never_writes_status 1 [tNull] [c5data] tNull dNull

/-- The user's rows that still have status `pending` when the summary is
requested. -/
def pendingOf (S : List Task) (u : Nat) : List Task :=
  S.filter fun t => decide (t.user_id = u) && decide (t.status = TaskStatus.pending)

/-- A pending task of user 1 whose due date is one day in the past. -/
def c3taskPending : Task :=
  { user_id := 1, title := "past due", description := none,
    task_type := TaskType.assignment, status := TaskStatus.pending,
    source_type := SourceType.canvas, source_id := some "1",
    due_date := some (-86400), start_date := none, priority := 0,
    task_metadata := none }

/-- A pending task of user 1 due one day in the future. -/
def c3futureTask : Task :=
  { c3taskPending with source_id := some "2", due_date := some 86400 }

/-- A pending task of user 1 with no due date.  Together with a dated
pending task it makes the summarizer's sort key mix a timezone-aware
instant with the naive `datetime.max` fallback inside one status group. -/
def undatedPendingTask : Task :=
  { c3taskPending with source_id := some "3", due_date := none }

lemma summarizeTasks_snd_eq (S : List Task) (u : Nat) (now : Int) :
    (summarizeTasks S u now).2 =
      match pySorted (summarizeList S u now) with
      | Except.error e => Except.error e
      | Except.ok sorted_tasks =>
        Except.ok
          { total_tasks := (getTasks S u none).length
            pending_tasks := ((getTasks S u none).filter fun t =>
              decide (t.status = TaskStatus.pending)).length
            overdue_tasks := (getOverdueTasks S u now).length
            high_priority_tasks := (getHighPriorityTasks S u now 48).length
            tasks_by_source := countBySource ((getTasks S u none).filter fun t =>
              decide (t.status = TaskStatus.pending))
            tasks := sorted_tasks } := rfl

lemma summarizeTasks_error_iff (S : List Task) (u : Nat) (now : Int) :
    (summarizeTasks S u now).2 = Except.error () ↔
      sortMixed (summarizeList S u now) = true := by
  rw [summarizeTasks_snd_eq]
  unfold pySorted
  by_cases hm : sortMixed (summarizeList S u now) = true
  · rw [if_pos hm]
    simp [hm]
  · rw [if_neg hm]
    simp [hm]

lemma summarizeTasks_ok_elim (S : List Task) (u : Nat) (now : Int)
    {summary : TaskSummary}
    (h : (summarizeTasks S u now).2 = Except.ok summary) :
    sortMixed (summarizeList S u now) = false ∧
      summary.tasks = List.insertionSort sortLE (summarizeList S u now) ∧
      summary.overdue_tasks = (getOverdueTasks S u now).length ∧
      summary.high_priority_tasks = (getHighPriorityTasks S u now 48).length ∧
      summary.pending_tasks = ((getTasks S u none).filter fun t =>
        decide (t.status = TaskStatus.pending)).length ∧
      summary.tasks_by_source = countBySource ((getTasks S u none).filter fun t =>
        decide (t.status = TaskStatus.pending)) := by
  rw [summarizeTasks_snd_eq] at h
  unfold pySorted at h
  by_cases hm : sortMixed (summarizeList S u now) = true
  · rw [if_pos hm] at h
    cases h
  · rw [if_neg hm] at h
    have hrec := Except.ok.inj h
    subst hrec
    exact ⟨Bool.eq_false_iff.mpr hm, rfl, rfl, rfl, rfl, rfl⟩

lemma summarizeList_perm (S : List Task) (u : Nat) (now : Int) :
    (summarizeList S u now).Perm
      ((pendingOf S u).map (flipOverdue u now) ++
        (getOverdueTasks S u now).map (flipOverdue u now)) := by
  unfold summarizeList
  refine List.Perm.append ?_ (List.Perm.refl _)
  refine List.Perm.map _ ?_
  unfold getTasks
  simp only
  refine ((List.perm_insertionSort fetchLE _).filter _).trans ?_
  rw [List.filter_filter]
  refine List.Perm.of_eq (List.filter_congr ?_)
  intro t _
  rw [Bool.and_comm]

/-- Whether the sort raises depends only on which rows are present, not on
their arrival order. -/
lemma sortMixed_of_perm {l l' : List Task} (h : l.Perm l') :
    sortMixed l = sortMixed l' := by
  have haux : ∀ {x y : List Task}, x.Perm y → sortMixed x = true →
      sortMixed y = true := by
    intro x y hxy hx
    unfold sortMixed at hx ⊢
    rw [List.any_eq_true] at hx ⊢
    obtain ⟨a, ha, hb⟩ := hx
    rw [List.any_eq_true] at hb
    obtain ⟨b, hbm, hc⟩ := hb
    refine ⟨a, hxy.mem_iff.mp ha, ?_⟩
    rw [List.any_eq_true]
    exact ⟨b, hxy.mem_iff.mp hbm, hc⟩
  by_cases h1 : sortMixed l = true
  · rw [h1, haux h h1]
  · by_cases h2 : sortMixed l' = true
    · exact absurd (haux h.symm h2) h1
    · rw [Bool.eq_false_iff.mpr h1, Bool.eq_false_iff.mpr h2]

lemma summarize_ok_tasks_perm (S : List Task) (u : Nat) (now : Int)
    {summary : TaskSummary}
    (h : (summarizeTasks S u now).2 = Except.ok summary) :
    summary.tasks.Perm
      ((pendingOf S u).map (flipOverdue u now) ++
        (getOverdueTasks S u now).map (flipOverdue u now)) := by
  obtain ⟨-, htasks, -⟩ := summarizeTasks_ok_elim S u now h
  rw [htasks]
  exact (List.perm_insertionSort sortLE _).trans (summarizeList_perm S u now)

lemma summarize_ok_tasks_sorted (S : List Task) (u : Nat) (now : Int)
    {summary : TaskSummary}
    (h : (summarizeTasks S u now).2 = Except.ok summary) :
    summary.tasks.Pairwise sortLE := by
  obtain ⟨-, htasks, -⟩ := summarizeTasks_ok_elim S u now h
  rw [htasks]
  exact List.sorted_insertionSort sortLE _

lemma summarize_ok_mem_shape (S : List Task) (u : Nat) (now : Int)
    {summary : TaskSummary}
    (h : (summarizeTasks S u now).2 = Except.ok summary) (t : Task)
    (ht : t ∈ summary.tasks) :
    ∃ t0, t0.status = TaskStatus.pending ∧ t = flipOverdue u now t0 := by
  have hmem := (summarize_ok_tasks_perm S u now h).mem_iff.mp ht
  rw [List.mem_append] at hmem
  rcases hmem with hm | hm <;> rw [List.mem_map] at hm <;>
    obtain ⟨t0, ht0, rfl⟩ := hm
  · rw [pendingOf, List.mem_filter] at ht0
    refine ⟨t0, ?_, rfl⟩
    have := ht0.2
    simp only [Bool.and_eq_true, decide_eq_true_eq] at this
    exact this.2
  · rw [getOverdueTasks, List.mem_filter] at ht0
    refine ⟨t0, ?_, rfl⟩
    have := ht0.2
    simp only [Bool.and_eq_true, decide_eq_true_eq] at this
    exact this.1.2

lemma flipOverdue_overdue_due (u : Nat) (now : Int) (t0 : Task)
    (hp : t0.status = TaskStatus.pending)
    (h : (flipOverdue u now t0).status = TaskStatus.overdue) :
    dueBefore (flipOverdue u now t0).due_date now := by
  unfold flipOverdue at *
  by_cases hc : t0.user_id = u ∧ t0.status = TaskStatus.pending ∧
      dueBefore t0.due_date now
  · rw [if_pos hc]
    simpa using hc.2.2
  · rw [if_neg hc] at h
    rw [hp] at h
    exact absurd h (by simp)

lemma flipOverdue_not_complete (u : Nat) (now : Int) (t0 : Task)
    (hp : t0.status = TaskStatus.pending) :
    (flipOverdue u now t0).status ≠ TaskStatus.complete := by
  unfold flipOverdue
  split
  · simp
  · rw [hp]
    simp

/-- A filter whose condition entails "user's and pending" is empty whenever
the user has no pending rows. -/
lemma filter_sub_pending_nil {S : List Task} {u : Nat}
    (h : pendingOf S u = []) (p : Task → Bool)
    (hp : ∀ t, p t = true →
      (decide (t.user_id = u) && decide (t.status = TaskStatus.pending)) = true) :
    S.filter p = [] := by
  rw [List.filter_eq_nil_iff]
  intro t ht hc
  have hmem : t ∈ pendingOf S u := List.mem_filter.mpr ⟨ht, hp t hc⟩
  rw [h] at hmem
  simp at hmem

lemma pending_filter_eq_nil {S : List Task} {u : Nat}
    (h : pendingOf S u = []) :
    (getTasks S u none).filter
      (fun t => decide (t.status = TaskStatus.pending)) = [] := by
  have hperm : ((getTasks S u none).filter fun t =>
      decide (t.status = TaskStatus.pending)).Perm (pendingOf S u) := by
    unfold getTasks
    simp only
    refine ((List.perm_insertionSort fetchLE _).filter _).trans ?_
    rw [List.filter_filter]
    refine List.Perm.of_eq (List.filter_congr fun t _ => ?_)
    rw [Bool.and_comm]
  rw [h] at hperm
  exact hperm.eq_nil

lemma overdue_tasks_eq_nil {S : List Task} {u : Nat} {now : Int}
    (h : pendingOf S u = []) : getOverdueTasks S u now = [] := by
  refine filter_sub_pending_nil h _ fun t hc => ?_
  simp only [Bool.and_eq_true] at hc ⊢
  exact hc.1

lemma high_tasks_eq_nil {S : List Task} {u : Nat} {now : Int}
    (h : pendingOf S u = []) : getHighPriorityTasks S u now 48 = [] := by
  refine filter_sub_pending_nil h _ fun t hc => ?_
  simp only [Bool.and_eq_true] at hc ⊢
  exact hc.1

/-- C8, counterexample.  The plain-language summary is not always a
sentence built from the counts: with a dated and an undated pending task in
the same status group, `summarize_tasks` raises inside its sort before any
sentence is produced, and the exception propagates uncaught. -/
theorem c8_plain_language_counterexample :
    getPlainLanguageSummary [c3futureTask, undatedPendingTask] 1 0 =
      Except.error () := by decide

/-- C8, amended.  Whenever `summarize_tasks` returns (no status group mixes
a dated and an undated task), the plain-language summary is the
deterministic sentence built from the aggregate counts — one clause per
non-zero count in the fixed order overdue, high-priority, total pending,
per-source breakdown, joined with ". " and a trailing period — and exactly
"No pending tasks. You're all caught up!" when every count is zero (a user
with no pending rows always reaches that sentence); when the sort raises,
the call propagates the error instead of returning a sentence. -/
theorem c8_plain_language_summary (S : List Task) (u : Nat) (now : Int) :
    (∀ summary, (summarizeTasks S u now).2 = Except.ok summary →
        getPlainLanguageSummary S u now =
          Except.ok (specPlainSummary summary.overdue_tasks
            summary.high_priority_tasks summary.pending_tasks
            summary.tasks_by_source)) ∧
      (∀ summary, (summarizeTasks S u now).2 = Except.ok summary →
        summary.overdue_tasks = 0 → summary.high_priority_tasks = 0 →
        summary.pending_tasks = 0 →
        getPlainLanguageSummary S u now =
          Except.ok "No pending tasks. You\x27re all caught up!") ∧
      (pendingOf S u = [] →
        getPlainLanguageSummary S u now =
          Except.ok "No pending tasks. You\x27re all caught up!") ∧
      (getPlainLanguageSummary S u now = Except.error () ↔
        (summarizeTasks S u now).2 = Except.error ()) := by
  have hmain : ∀ summary, (summarizeTasks S u now).2 = Except.ok summary →
      getPlainLanguageSummary S u now =
        Except.ok (specPlainSummary summary.overdue_tasks
          summary.high_priority_tasks summary.pending_tasks
          summary.tasks_by_source) := by
    intro summary h
    unfold getPlainLanguageSummary
    rw [h]
    refine congrArg Except.ok ?_
    unfold specPlainSummary specClauses
    by_cases h1 : summary.overdue_tasks = 0 <;>
      by_cases h2 : summary.high_priority_tasks = 0 <;>
      by_cases h3 : summary.pending_tasks = 0 <;>
      by_cases h4 : summary.tasks_by_source.isEmpty = true <;>
      simp [h1, h2, h3, h4, Nat.pos_iff_ne_zero]
  refine ⟨hmain, ?_, ?_, ?_⟩
  · intro summary h h1 h2 h3
    obtain ⟨-, -, -, -, hpend, hsrc⟩ := summarizeTasks_ok_elim S u now h
    rw [h3] at hpend
    have hfil := List.length_eq_zero.mp hpend.symm
    rw [hfil] at hsrc
    rw [hmain summary h, h1, h2, h3, hsrc]
    rfl
  · intro hpend
    have hpf := pending_filter_eq_nil hpend
    have hov := @overdue_tasks_eq_nil S u now hpend
    have hhigh := @high_tasks_eq_nil S u now hpend
    have hlist : summarizeList S u now = [] := by
      unfold summarizeList
      rw [hpf, hov]
      rfl
    unfold getPlainLanguageSummary
    rw [summarizeTasks_snd_eq, hlist, hpf, hov, hhigh]
    rfl
  · cases h : (summarizeTasks S u now).2 with
    | error e =>
      cases e
      unfold getPlainLanguageSummary
      rw [h]
      simp
    | ok s =>
      unfold getPlainLanguageSummary
      rw [h]
      simp

theorem c8_witness :
    getPlainLanguageSummary [] 1 0 =
        Except.ok (specPlainSummary 0 0 0 []) ∧
      getPlainLanguageSummary [] 1 0 =
        Except.ok "No pending tasks. You\x27re all caught up!" := by
  have h := c8_plain_language_summary [] 1 0
  have hok : (summarizeTasks [] 1 0).2 = Except.ok
      { total_tasks := 0, pending_tasks := 0, overdue_tasks := 0,
        high_priority_tasks := 0, tasks_by_source := [], tasks := [] } := by
    decide
  exact ⟨h.1 _ hok, h.2.1 _ hok rfl rfl rfl⟩

/-- C3, counterexample.  `ordered_records` does not contain each pending-or-
overdue record exactly once: a pending record whose due date has passed is
freshly flipped to overdue and appears twice (it sits in both
`pending_tasks` and `overdue_tasks`, which are concatenated before the
sort), while a record already in status overdue from an earlier call appears
zero times (both source queries require status pending). -/
theorem c3_ordered_records_counterexample :
    ((summarizeTasks [c3taskPending] 1 0).2.map fun s => s.tasks.length) =
        Except.ok 2 ∧
      ((summarizeTasks [{ c3taskPending with status := TaskStatus.overdue }] 1
          0).2.map fun s => s.tasks) = Except.ok [] := by decide

/-- C3, amended.  Whenever the summary is produced, `ordered_records`
contains exactly the records that were still in status pending when the
summary was requested — those with a past due date twice (flipped to
overdue), the rest once; records already overdue or complete are excluded —
and it is sorted by the order: overdue-status entries before pending ones,
then due date ascending, then priority descending.  The summary is produced
only when no status group mixes a dated and an undated record; otherwise
the sort compares a timezone-aware due date against the naive
`datetime.max` fallback and the call raises `TypeError` instead of
returning (so the order is not total on the program's inputs). -/
theorem c3_ordered_records_amended (S : List Task) (u : Nat) (now : Int) :
    (∀ summary, (summarizeTasks S u now).2 = Except.ok summary →
        summary.tasks.Perm
          ((pendingOf S u).map (flipOverdue u now) ++
            (getOverdueTasks S u now).map (flipOverdue u now)) ∧
          summary.tasks.Pairwise sortLE) ∧
      ((summarizeTasks S u now).2 = Except.error () ↔
        sortMixed
          ((pendingOf S u).map (flipOverdue u now) ++
            (getOverdueTasks S u now).map (flipOverdue u now)) = true) := by
  constructor
  · intro summary h
    exact ⟨summarize_ok_tasks_perm S u now h,
      summarize_ok_tasks_sorted S u now h⟩
  · rw [summarizeTasks_error_iff,
      sortMixed_of_perm (summarizeList_perm S u now)]

/-- The summary value produced on the single-row store `[c3taskPending]`. -/
def c3okSummary : TaskSummary :=
  { total_tasks := 1, pending_tasks := 1, overdue_tasks := 1,
    high_priority_tasks := 0, tasks_by_source := [(SourceType.canvas, 1)],
    tasks := [{ c3taskPending with status := TaskStatus.overdue },
      { c3taskPending with status := TaskStatus.overdue }] }

theorem c3_witness :
    (c3okSummary.tasks.Perm
        ((pendingOf [c3taskPending] 1).map (flipOverdue 1 0) ++
          (getOverdueTasks [c3taskPending] 1 0).map (flipOverdue 1 0)) ∧
      c3okSummary.tasks.Pairwise sortLE) ∧
      ((summarizeTasks [c3taskPending] 1 0).2 = Except.error () ↔
        sortMixed
          ((pendingOf [c3taskPending] 1).map (flipOverdue 1 0) ++
            (getOverdueTasks [c3taskPending] 1 0).map (flipOverdue 1 0)) =
          true) :=
  ⟨(c3_ordered_records_amended [c3taskPending] 1 0).1 c3okSummary (by decide),
    (c3_ordered_records_amended [c3taskPending] 1 0).2⟩

/-- C6, counterexample.  With a past-due, a future-due and an undated
pending task, the summary request still commits the overdue flip (done row
by row before the sort), but then raises inside the sort: the flipped
record never appears in `ordered_records`, because no `ordered_records` is
produced at all. -/
theorem c6_lazy_overdue_counterexample :
    (summarizeTasks [c3taskPending, c3futureTask, undatedPendingTask] 1
          0).2 = Except.error () ∧
      (summarizeTasks [c3taskPending, c3futureTask, undatedPendingTask] 1
          0).1.get? 0 =
        some { c3taskPending with status := TaskStatus.overdue } := by decide

/-- C6, amended.  A summary request flips exactly the user's pending
records with a past due date to overdue (the flip is committed before the
sort, and the store is otherwise untouched, so overdue and complete are
terminal under summarize even when the sort then raises); whenever the
summary is produced, every overdue-status entry of `ordered_records`
precedes every entry whose due date is not in the past; and sync never
changes the status of an existing row. -/
theorem c6_lazy_overdue_transition (S : List Task) (u : Nat) (now : Int)
    (B : List TaskData) :
    (∀ i (hi : i < S.length),
        (summarizeTasks S u now).1.get? i =
          some (if (S.get ⟨i, hi⟩).user_id = u ∧
              (S.get ⟨i, hi⟩).status = TaskStatus.pending ∧
              dueBefore (S.get ⟨i, hi⟩).due_date now
            then { S.get ⟨i, hi⟩ with status := TaskStatus.overdue }
            else S.get ⟨i, hi⟩)) ∧
      (∀ summary, (summarizeTasks S u now).2 = Except.ok summary →
        ∀ i j (hi : i < summary.tasks.length) (hj : j < summary.tasks.length),
        (summary.tasks.get ⟨i, hi⟩).status = TaskStatus.overdue →
        (∃ dj, (summary.tasks.get ⟨j, hj⟩).due_date = some dj ∧ now ≤ dj) →
        i < j) ∧
      (∀ i t t', (reconcile u S B).get? i = some t' → S.get? i = some t →
        t'.status = t.status) := by
  refine ⟨?_, ?_, ?_⟩
  · intro i hi
    show (S.map (flipOverdue u now)).get? i = _
    rw [List.get?_map, List.get?_eq_get hi]
    rfl
  · intro summary h i j hi hj hov hfut
    obtain ⟨dj, hdj, hnow⟩ := hfut
    by_contra hij
    push_neg at hij
    have hmemj := List.get_mem summary.tasks j hj
    obtain ⟨t0j, ht0jp, heqj⟩ := summarize_ok_mem_shape S u now h _ hmemj
    cases hsj : (summary.tasks.get ⟨j, hj⟩).status with
    | complete =>
      exact absurd (heqj ▸ hsj) (flipOverdue_not_complete u now t0j ht0jp)
    | overdue =>
      have hdue := flipOverdue_overdue_due u now t0j ht0jp (heqj ▸ hsj)
      rw [← heqj] at hdue
      rw [hdj] at hdue
      unfold dueBefore at hdue
      omega
    | pending =>
      have hne : i ≠ j := by
        intro hij'
        subst hij'
        rw [hov] at hsj
        exact absurd hsj (by simp)
      have hji : j < i := lt_of_le_of_ne hij (Ne.symm hne)
      have hrel := List.pairwise_iff_get.mp
        (summarize_ok_tasks_sorted S u now h) ⟨j, hj⟩ ⟨i, hi⟩ hji
      unfold sortLE ovKey at hrel
      rw [hov, hsj] at hrel
      simp at hrel
  · intro i t t' ht' ht
    obtain ⟨k, hk⟩ := reconcile_map_status u B S
    have h1 : ((reconcile u S B).map (fun x => x.status)).get? i =
        some t'.status := by
      rw [List.get?_map, ht']
      rfl
    obtain ⟨hlen, -⟩ := List.get?_eq_some.mp ht
    have h2 : ((S.map (fun x => x.status)) ++
        List.replicate k TaskStatus.pending).get? i =
        (S.map (fun x => x.status)).get? i :=
      List.get?_append (by simpa using hlen)
    rw [hk, h2, List.get?_map, ht] at h1
    exact (Option.some.inj h1).symm

/-- The summary value produced on the store
`[c3taskPending, c3futureTask]`. -/
def c6okSummary : TaskSummary :=
  { total_tasks := 2, pending_tasks := 2, overdue_tasks := 1,
    high_priority_tasks := 1, tasks_by_source := [(SourceType.canvas, 2)],
    tasks := [{ c3taskPending with status := TaskStatus.overdue },
      { c3taskPending with status := TaskStatus.overdue }, c3futureTask] }

theorem c6_witness :
    (summarizeTasks [c3taskPending, c3futureTask] 1 0).1.get? 0 =
        some { c3taskPending with status := TaskStatus.overdue } ∧
      (0 : Nat) < 2 ∧
      c3taskPending.status = c3taskPending.status := by
  have h := c6_lazy_overdue_transition [c3taskPending, c3futureTask] 1 0 []
  refine ⟨?_, ?_, ?_⟩
  · exact (h.1 0 (by decide)).trans (by decide)
  · exact h.2.1 c6okSummary (by decide) 0 2 (by decide) (by decide) (by decide)
      ⟨86400, by decide, by decide⟩
  · exact h.2.2 0 c3taskPending c3taskPending (by decide) (by decide)

/-! ### Idempotence of reconciliation (C1)

The analysis below characterises the reconcile loop.  Under the store
invariant the in-place update of the first matching row coincides with a
map that updates every matching row (`umap`), the whole loop splits into a
pointwise replay (`pfold`) on the pre-existing rows plus a fold that builds
the inserted rows (`ifold`), and each resulting row is a fold of plain
field assignments (`foldUpd`), which is idempotent field by field. -/

/-- The identity key of a row, as preserved by updates. -/
def keyEq (a b : Task) : Prop :=
  a.user_id = b.user_id ∧ a.source_id = b.source_id ∧ a.source_type = b.source_type

/-- One parallel-update step: update a row exactly when it matches. -/
def updMatched (u : Nat) (d : TaskData) (t : Task) : Task :=
  if SameKey u d t then upd t d else t

/-- Update every matching row. -/
def umap (u : Nat) (S : List Task) (d : TaskData) : List Task :=
  S.map (updMatched u d)

/-- Replay a whole batch onto a single row, applying exactly the records
that match it. -/
def pfold (u : Nat) (t : Task) (B : List TaskData) : Task :=
  B.foldl (fun acc d => updMatched u d acc) t

/-- Replay a batch pointwise onto a store. -/
def pupdAll (u : Nat) (S : List Task) (B : List TaskData) : List Task :=
  S.map fun t => pfold u t B

/-- Plain fold of update assignments. -/
def foldUpd (t : Task) (L : List TaskData) : Task :=
  L.foldl upd t

/-- The rows inserted (and subsequently updated) by the reconcile loop:
records matching the pre-existing store `S` are skipped, records matching
an inserted row update it, fresh records insert a new row. -/
def ifold (u : Nat) (S N : List Task) (B : List TaskData) : List Task :=
  match B with
  | [] => N
  | d :: B' =>
    if existsMatch u S d then ifold u S N B'
    else if existsMatch u N d then ifold u S (umap u N d) B'
    else ifold u S (N ++ [newTask d]) B'

lemma keyEq_refl (a : Task) : keyEq a a := ⟨rfl, rfl, rfl⟩

lemma keyEq_trans {a b c : Task} (h1 : keyEq a b) (h2 : keyEq b c) : keyEq a c :=
  ⟨h1.1.trans h2.1, h1.2.1.trans h2.2.1, h1.2.2.trans h2.2.2⟩

lemma sameKey_congr {a b : Task} (h : keyEq a b) (u : Nat) (d : TaskData) :
    SameKey u d a ↔ SameKey u d b := by
  unfold SameKey
  rw [h.1, h.2.1, h.2.2]

lemma dupKey_congr {a a' b b' : Task} (ha : keyEq a a') (hb : keyEq b b') :
    dupKey a b ↔ dupKey a' b' := by
  unfold dupKey
  rw [ha.1, ha.2.1, ha.2.2, hb.1, hb.2.1, hb.2.2]

lemma upd_keyEq {u : Nat} {d : TaskData} {t : Task} (h : SameKey u d t) :
    keyEq (upd t d) t := by
  obtain ⟨h1, h2, h3⟩ := h
  exact ⟨rfl, h2.symm, h3.symm⟩

lemma updMatched_keyEq (u : Nat) (d : TaskData) (t : Task) :
    keyEq (updMatched u d t) t := by
  unfold updMatched
  split
  · exact upd_keyEq (by assumption)
  · exact keyEq_refl t

lemma forall₂_keyEq_refl (l : List Task) : List.Forall₂ keyEq l l := by
  induction l with
  | nil => exact List.Forall₂.nil
  | cons t ts ih => exact List.Forall₂.cons (keyEq_refl t) ih

lemma forall₂_keyEq_umap (u : Nat) (S : List Task) (d : TaskData) :
    List.Forall₂ keyEq (umap u S d) S := by
  induction S with
  | nil => exact List.Forall₂.nil
  | cons t ts ih => exact List.Forall₂.cons (updMatched_keyEq u d t) ih

lemma forall₂_keyEq_updateFirst (u : Nat) (S : List Task) (d : TaskData) :
    List.Forall₂ keyEq (updateFirst u S d) S := by
  induction S with
  | nil => exact List.Forall₂.nil
  | cons t ts ih =>
    unfold updateFirst
    split
    · exact List.Forall₂.cons (upd_keyEq (by assumption)) (forall₂_keyEq_refl ts)
    · exact List.Forall₂.cons (keyEq_refl t) ih

lemma existsMatch_congr {S' S : List Task} (h : List.Forall₂ keyEq S' S)
    (u : Nat) (d : TaskData) : existsMatch u S' d = existsMatch u S d := by
  induction h with
  | nil => rfl
  | cons hab htl ih =>
    unfold existsMatch at *
    simp only [List.any_cons]
    rw [ih]
    congr 1
    simp [sameKey_congr hab]

lemma notDup_transport {a a' : Task} {L L' : List Task}
    (hL : List.Forall₂ keyEq L' L) (ha : keyEq a' a)
    (h : ∀ b ∈ L, ¬ dupKey a b) : ∀ b' ∈ L', ¬ dupKey a' b' := by
  induction hL with
  | nil => intro b hb; simp at hb
  | cons hab htl ih =>
    intro b' hb'
    rcases List.mem_cons.mp hb' with rfl | hmem
    · rw [dupKey_congr ha hab]
      exact h _ (List.mem_cons_self _ _)
    · exact ih (fun b hb => h b (List.mem_cons_of_mem _ hb)) b' hmem

lemma storeInv_transport {S' S : List Task} (h : List.Forall₂ keyEq S' S)
    (hinv : StoreInv S) : StoreInv S' := by
  induction h with
  | nil => exact List.Pairwise.nil
  | cons hab htl ih =>
    rw [StoreInv, List.pairwise_cons] at hinv ⊢
    exact ⟨notDup_transport htl hab hinv.1, ih hinv.2⟩

lemma existsMatch_false_iff (u : Nat) (S : List Task) (d : TaskData) :
    existsMatch u S d = false ↔ ∀ t ∈ S, ¬ SameKey u d t := by
  unfold existsMatch
  rw [List.any_eq_false]
  simp

lemma existsMatch_true_iff (u : Nat) (S : List Task) (d : TaskData) :
    existsMatch u S d = true ↔ ∃ t ∈ S, SameKey u d t := by
  unfold existsMatch
  rw [List.any_eq_true]
  simp

lemma existsMatch_append (u : Nat) (S N : List Task) (d : TaskData) :
    existsMatch u (S ++ N) d = (existsMatch u S d || existsMatch u N d) :=
  List.any_append

/-- Two rows matching the same non-null-id record collide on the identity
key. -/
lemma dupKey_of_sameKey {u : Nat} {d : TaskData} {a b : Task}
    (hsome : d.source_id.isSome) (ha : SameKey u d a) (hb : SameKey u d b) :
    dupKey a b := by
  refine ⟨ha.1.trans hb.1.symm, ha.2.1.trans hb.2.1.symm, ?_,
    ha.2.2.trans hb.2.2.symm⟩
  rw [ha.2.1]
  exact hsome

lemma updMatched_pos {u : Nat} {d : TaskData} {t : Task} (h : SameKey u d t) :
    updMatched u d t = upd t d := if_pos h

lemma updMatched_neg {u : Nat} {d : TaskData} {t : Task} (h : ¬ SameKey u d t) :
    updMatched u d t = t := if_neg h

lemma updateFirst_cons (u : Nat) (t : Task) (ts : List Task) (d : TaskData) :
    updateFirst u (t :: ts) d =
      if SameKey u d t then upd t d :: ts else t :: updateFirst u ts d := rfl

lemma umap_cons (u : Nat) (t : Task) (ts : List Task) (d : TaskData) :
    umap u (t :: ts) d = updMatched u d t :: umap u ts d := rfl

lemma existsMatch_cons (u : Nat) (t : Task) (ts : List Task) (d : TaskData) :
    existsMatch u (t :: ts) d =
      (decide (SameKey u d t) || existsMatch u ts d) := List.any_cons

/-- Under the store invariant at most one row matches a non-null-id record,
so updating the first match agrees with updating every match. -/
lemma updateFirst_eq_umap (u : Nat) {S : List Task} (d : TaskData)
    (hinv : StoreInv S) (hsome : d.source_id.isSome) :
    updateFirst u S d = umap u S d := by
  induction S with
  | nil => rfl
  | cons t ts ih =>
    rw [StoreInv, List.pairwise_cons] at hinv
    rw [updateFirst_cons, umap_cons]
    by_cases h : SameKey u d t
    · rw [if_pos h, updMatched_pos h]
      congr 1
      have hid : ∀ x ∈ ts, updMatched u d x = x := by
        intro x hx
        refine updMatched_neg fun hx' => ?_
        exact hinv.1 x hx (dupKey_of_sameKey hsome h hx')
      rw [umap, List.map_congr_left hid]
      simp
    · rw [if_neg h, updMatched_neg h, ih hinv.2]

lemma updateFirst_append (u : Nat) (S N : List Task) (d : TaskData) :
    updateFirst u (S ++ N) d =
      if existsMatch u S d then updateFirst u S d ++ N
      else S ++ updateFirst u N d := by
  induction S with
  | nil =>
    have : existsMatch u ([] : List Task) d = false := rfl
    rw [this]
    simp
  | cons t ts ih =>
    simp only [List.cons_append]
    rw [updateFirst_cons, updateFirst_cons, existsMatch_cons]
    by_cases h : SameKey u d t
    · rw [if_pos h, if_pos h]
      rw [if_pos (by simp [h])]
      simp only [List.cons_append]
    · rw [if_neg h, if_neg h, ih]
      have hd : decide (SameKey u d t) = false := by simp [h]
      rw [hd, Bool.false_or]
      by_cases hex : existsMatch u ts d = true
      · rw [if_pos hex, if_pos hex]
        simp only [List.cons_append]
      · rw [if_neg hex, if_neg hex]

lemma reconcileOne_pos {u : Nat} {S : List Task} {d : TaskData}
    (h : existsMatch u S d = true) :
    reconcileOne u S d = updateFirst u S d := by
  unfold reconcileOne
  rw [h]
  rfl

lemma reconcileOne_neg {u : Nat} {S : List Task} {d : TaskData}
    (h : existsMatch u S d = false) :
    reconcileOne u S d = S ++ [newTask d] := by
  unfold reconcileOne
  rw [h]
  rfl

lemma reconcile_cons (u : Nat) (S : List Task) (d : TaskData) (B : List TaskData) :
    reconcile u S (d :: B) = reconcile u (reconcileOne u S d) B := rfl

lemma sameKey_newTask_self {u : Nat} {d : TaskData} (hu : d.user_id = u) :
    SameKey u d (newTask d) :=
  ⟨hu, rfl, rfl⟩

lemma storeInv_append_new {u : Nat} {S : List Task} {d : TaskData}
    (hinv : StoreInv S) (hno : existsMatch u S d = false) (hu : d.user_id = u) :
    StoreInv (S ++ [newTask d]) := by
  rw [StoreInv, List.pairwise_append]
  refine ⟨hinv, List.pairwise_singleton _ _, ?_⟩
  intro a ha b hb
  rw [List.mem_singleton] at hb
  subst hb
  intro hdup
  obtain ⟨h1, h2, _, h4⟩ := hdup
  have hsk : SameKey u d a := ⟨h1.trans hu, h2, h4⟩
  exact absurd hsk ((existsMatch_false_iff u S d).mp hno a ha)

lemma storeInv_reconcileOne {u : Nat} {S : List Task} {d : TaskData}
    (hinv : StoreInv S) (hsome : d.source_id.isSome) (hu : d.user_id = u) :
    StoreInv (reconcileOne u S d) := by
  by_cases h : existsMatch u S d = true
  · rw [reconcileOne_pos h, updateFirst_eq_umap u d hinv hsome]
    exact storeInv_transport (forall₂_keyEq_umap u S d) hinv
  · rw [reconcileOne_neg (Bool.eq_false_iff.mpr h)]
    exact storeInv_append_new hinv (Bool.eq_false_iff.mpr h) hu

lemma storeInv_reconcile {u : Nat} (B : List TaskData) (S : List Task)
    (hinv : StoreInv S) (hsome : ∀ d ∈ B, d.source_id.isSome)
    (hu : ∀ d ∈ B, d.user_id = u) : StoreInv (reconcile u S B) := by
  induction B generalizing S with
  | nil => exact hinv
  | cons d B ih =>
    rw [reconcile_cons]
    exact ih (reconcileOne u S d)
      (storeInv_reconcileOne hinv (hsome d (List.mem_cons_self d B))
        (hu d (List.mem_cons_self d B)))
      (fun d' hd' => hsome d' (List.mem_cons_of_mem d hd'))
      (fun d' hd' => hu d' (List.mem_cons_of_mem d hd'))

lemma existsMatch_reconcileOne_self {u : Nat} {S : List Task} {d : TaskData}
    (hu : d.user_id = u) : existsMatch u (reconcileOne u S d) d = true := by
  by_cases h : existsMatch u S d = true
  · rw [reconcileOne_pos h,
      existsMatch_congr (forall₂_keyEq_updateFirst u S d)]
    exact h
  · rw [reconcileOne_neg (Bool.eq_false_iff.mpr h), existsMatch_append]
    have h2 : existsMatch u [newTask d] d = true := by
      rw [existsMatch_true_iff]
      exact ⟨newTask d, List.mem_singleton_self _, sameKey_newTask_self hu⟩
    rw [h2, Bool.or_true]

lemma existsMatch_mono {u : Nat} {S : List Task} {d : TaskData}
    (h : existsMatch u S d = true) (d' : TaskData) :
    existsMatch u (reconcileOne u S d') d = true := by
  by_cases h' : existsMatch u S d' = true
  · rw [reconcileOne_pos h',
      existsMatch_congr (forall₂_keyEq_updateFirst u S d')]
    exact h
  · rw [reconcileOne_neg (Bool.eq_false_iff.mpr h'), existsMatch_append, h]
    rfl

lemma existsMatch_mono_reconcile {u : Nat} {d : TaskData} (B : List TaskData)
    (S : List Task) (h : existsMatch u S d = true) :
    existsMatch u (reconcile u S B) d = true := by
  induction B generalizing S with
  | nil => exact h
  | cons d' B ih =>
    rw [reconcile_cons]
    exact ih _ (existsMatch_mono h d')

/-- After a reconcile run, every record of the batch has a matching row. -/
lemma reconcile_saturated {u : Nat} (B : List TaskData) (S : List Task)
    (hu : ∀ d ∈ B, d.user_id = u) :
    ∀ d ∈ B, existsMatch u (reconcile u S B) d = true := by
  induction B generalizing S with
  | nil => intro d hd; simp at hd
  | cons d0 B ih =>
    intro d hd
    rcases List.mem_cons.mp hd with rfl | hd'
    · rw [reconcile_cons]
      exact existsMatch_mono_reconcile B _
        (existsMatch_reconcileOne_self (hu d (List.mem_cons_self d B)))
    · rw [reconcile_cons]
      exact ih (reconcileOne u S d0)
        (fun d' hd'' => hu d' (List.mem_cons_of_mem d0 hd'')) d hd'

/-- Last-writer-wins value of an always-written field. -/
def lastWr {α : Type} (f : TaskData → α) (L : List TaskData) (x : α) : α :=
  L.foldl (fun _ d => f d) x

/-- Last-writer-wins value of the conditionally written `start_date`. -/
def stWr (L : List TaskData) (x : Option Int) : Option Int :=
  L.foldl (fun a d => if d.has_start_date then d.start_date else a) x

lemma pfold_cons (u : Nat) (t : Task) (d : TaskData) (B : List TaskData) :
    pfold u t (d :: B) = pfold u (updMatched u d t) B := rfl

lemma foldUpd_cons (t : Task) (d : TaskData) (L : List TaskData) :
    foldUpd t (d :: L) = foldUpd (upd t d) L := rfl

lemma foldUpd_append (t : Task) (L1 L2 : List TaskData) :
    foldUpd t (L1 ++ L2) = foldUpd (foldUpd t L1) L2 :=
  List.foldl_append _ _ _ _

lemma keyEq_pfold (u : Nat) (t : Task) (B : List TaskData) :
    keyEq (pfold u t B) t := by
  induction B generalizing t with
  | nil => exact keyEq_refl t
  | cons d B ih =>
    rw [pfold_cons]
    exact keyEq_trans (ih _) (updMatched_keyEq u d t)

/-- Replaying a batch onto a row applies exactly its matching records, in
order. -/
lemma pfold_filter (u : Nat) (B : List TaskData) (t : Task) :
    pfold u t B = foldUpd t (B.filter fun d => decide (SameKey u d t)) := by
  induction B generalizing t with
  | nil => rfl
  | cons d B ih =>
    rw [pfold_cons, List.filter_cons]
    by_cases h : SameKey u d t
    · rw [updMatched_pos h, if_pos (by simpa), foldUpd_cons, ih (upd t d)]
      congr 1
      refine List.filter_congr fun d' _ => ?_
      simp [sameKey_congr (upd_keyEq h)]
    · rw [updMatched_neg h, if_neg (by simpa), ih]

/-- A fold of update assignments, characterised field by field: every
always-written field holds the last writer's value, `start_date` holds the
last value among records carrying the key, `user_id` and `status` are
untouched. -/
lemma foldUpd_char (L : List TaskData) (t : Task) :
    foldUpd t L =
      { user_id := t.user_id
        title := lastWr (fun d => d.title) L t.title
        description := lastWr (fun d => some d.description) L t.description
        task_type := lastWr (fun d => d.task_type) L t.task_type
        status := t.status
        source_type := lastWr (fun d => d.source_type) L t.source_type
        source_id := lastWr (fun d => d.source_id) L t.source_id
        due_date := lastWr (fun d => d.due_date) L t.due_date
        start_date := stWr L t.start_date
        priority := lastWr (fun d => d.priority) L t.priority
        task_metadata := lastWr (fun d => some d.task_metadata) L
          t.task_metadata } := by
  induction L generalizing t with
  | nil => rfl
  | cons d L ih =>
    rw [foldUpd_cons, ih]
    rfl

lemma lastWr_idem {α : Type} (f : TaskData → α) (L : List TaskData) (x : α) :
    lastWr f L (lastWr f L x) = lastWr f L x := by
  cases L with
  | nil => rfl
  | cons d L => rfl

lemma stWr_cons (d : TaskData) (L : List TaskData) (x : Option Int) :
    stWr (d :: L) x =
      stWr L (if d.has_start_date then d.start_date else x) := rfl

lemma stWr_idem (L : List TaskData) (x : Option Int) :
    stWr L (stWr L x) = stWr L x := by
  induction L generalizing x with
  | nil => rfl
  | cons d L ih =>
    by_cases h : d.has_start_date
    · have e : stWr (d :: L) x = stWr L d.start_date := by
        rw [stWr_cons, if_pos h]
      rw [e, stWr_cons, if_pos h]
    · have e : stWr (d :: L) x = stWr L x := by
        rw [stWr_cons, if_neg h]
      rw [e, stWr_cons, if_neg h]
      exact ih x

lemma foldUpd_idem (t : Task) (L : List TaskData) :
    foldUpd (foldUpd t L) L = foldUpd t L := by
  rw [foldUpd_char L (foldUpd t L), foldUpd_char L t]
  simp [lastWr_idem, stWr_idem]

/-- Replaying the record that created a row, followed by the records that
updated it, leaves the row unchanged. -/
lemma foldUpd_absorb (d0 : TaskData) (L : List TaskData) :
    foldUpd (foldUpd (newTask d0) L) (d0 :: L) = foldUpd (newTask d0) L := by
  rw [foldUpd_cons]
  rw [foldUpd_char L (upd (foldUpd (newTask d0) L) d0),
    foldUpd_char L (newTask d0)]
  by_cases h : d0.has_start_date
  · simp [upd, newTask, h]
  · simp [upd, newTask, h, stWr_idem]

lemma pfold_idem (u : Nat) (t : Task) (B : List TaskData) :
    pfold u (pfold u t B) B = pfold u t B := by
  have hfeq : (B.filter fun d => decide (SameKey u d (pfold u t B))) =
      (B.filter fun d => decide (SameKey u d t)) := by
    refine List.filter_congr fun d _ => ?_
    simp [sameKey_congr (keyEq_pfold u t B)]
  rw [pfold_filter u B (pfold u t B), hfeq, pfold_filter u B t]
  exact foldUpd_idem t _

lemma ifold_nil (u : Nat) (S N : List Task) : ifold u S N [] = N := rfl

lemma ifold_cons (u : Nat) (S N : List Task) (d : TaskData) (B : List TaskData) :
    ifold u S N (d :: B) =
      if existsMatch u S d then ifold u S N B
      else if existsMatch u N d then ifold u S (umap u N d) B
      else ifold u S (N ++ [newTask d]) B := rfl

lemma ifold_congr_left {u : Nat} {S' S : List Task} {B : List TaskData}
    (h : ∀ d ∈ B, existsMatch u S' d = existsMatch u S d) (N : List Task) :
    ifold u S' N B = ifold u S N B := by
  induction B generalizing N with
  | nil => rfl
  | cons d B ih =>
    rw [ifold_cons, ifold_cons, h d (List.mem_cons_self d B)]
    have h' := fun d' hd' => h d' (List.mem_cons_of_mem d hd')
    by_cases h1 : existsMatch u S d = true
    · rw [if_pos h1, if_pos h1]
      exact ih h' N
    · rw [if_neg h1, if_neg h1]
      by_cases h2 : existsMatch u N d = true
      · rw [if_pos h2, if_pos h2]
        exact ih h' (umap u N d)
      · rw [if_neg h2, if_neg h2]
        exact ih h' (N ++ [newTask d])

/-- Characterisation of the reconcile loop: on a store split into
pre-existing rows `S` and inserted rows `N`, the loop acts as the pointwise
replay `pupdAll` on `S` together with the insert/update fold `ifold`
on `N`. -/
lemma reconcile_char (u : Nat) (B : List TaskData) :
    ∀ S N : List Task, StoreInv (S ++ N) →
      (∀ d ∈ B, d.source_id.isSome) → (∀ d ∈ B, d.user_id = u) →
      reconcile u (S ++ N) B = pupdAll u S B ++ ifold u S N B := by
  induction B with
  | nil =>
    intro S N _ _ _
    show S ++ N = pupdAll u S [] ++ N
    simp [pupdAll, pfold]
  | cons d B ih =>
    intro S N hinv hsome hu
    have hsome_d := hsome d (List.mem_cons_self d B)
    have hu_d := hu d (List.mem_cons_self d B)
    have hsome' := fun d' hd' => hsome d' (List.mem_cons_of_mem d hd')
    have hu' := fun d' hd' => hu d' (List.mem_cons_of_mem d hd')
    have hsplit := List.pairwise_append.mp hinv
    have hinvS : StoreInv S := hsplit.1
    have hinvN : StoreInv N := hsplit.2.1
    rw [reconcile_cons]
    by_cases hS : existsMatch u S d = true
    · have hex : existsMatch u (S ++ N) d = true := by
        rw [existsMatch_append, hS]
        rfl
      rw [reconcileOne_pos hex, updateFirst_append, if_pos hS,
        updateFirst_eq_umap u d hinvS hsome_d]
      have hforall : List.Forall₂ keyEq (umap u S d ++ N) (S ++ N) :=
        List.rel_append (forall₂_keyEq_umap u S d) (forall₂_keyEq_refl N)
      rw [ih (umap u S d) N (storeInv_transport hforall hinv) hsome' hu']
      have hpu : pupdAll u (umap u S d) B = pupdAll u S (d :: B) := by
        unfold pupdAll umap
        rw [List.map_map]
        rfl
      have hifc : ifold u (umap u S d) N B = ifold u S N B :=
        ifold_congr_left
          (fun d' _ => existsMatch_congr (forall₂_keyEq_umap u S d) u d') N
      have hif : ifold u S N B = ifold u S N (d :: B) := by
        rw [ifold_cons, if_pos hS]
      rw [hpu, hifc, hif]
    · have hSf : existsMatch u S d = false := Bool.eq_false_iff.mpr hS
      have hpupd : pupdAll u S B = pupdAll u S (d :: B) := by
        unfold pupdAll
        refine List.map_congr_left fun t ht => ?_
        rw [pfold_cons, updMatched_neg ((existsMatch_false_iff u S d).mp hSf t ht)]
      by_cases hN : existsMatch u N d = true
      · have hex : existsMatch u (S ++ N) d = true := by
          rw [existsMatch_append, hSf, hN]
          rfl
        rw [reconcileOne_pos hex, updateFirst_append, if_neg (by simp [hSf]),
          updateFirst_eq_umap u d hinvN hsome_d]
        have hforall : List.Forall₂ keyEq (S ++ umap u N d) (S ++ N) :=
          List.rel_append (forall₂_keyEq_refl S) (forall₂_keyEq_umap u N d)
        rw [ih S (umap u N d) (storeInv_transport hforall hinv) hsome' hu']
        have hif : ifold u S (umap u N d) B = ifold u S N (d :: B) := by
          rw [ifold_cons, if_neg (by simp [hSf]), if_pos hN]
        rw [hpupd, hif]
      · have hNf : existsMatch u N d = false := Bool.eq_false_iff.mpr hN
        have hex : existsMatch u (S ++ N) d = false := by
          rw [existsMatch_append, hSf, hNf]
          rfl
        rw [reconcileOne_neg hex, List.append_assoc]
        have hinv2 : StoreInv (S ++ (N ++ [newTask d])) := by
          rw [← List.append_assoc]
          exact storeInv_append_new hinv hex hu_d
        rw [ih S (N ++ [newTask d]) hinv2 hsome' hu']
        have hif : ifold u S (N ++ [newTask d]) B = ifold u S N (d :: B) := by
          rw [ifold_cons, if_neg (by simp [hSf]), if_neg (by simp [hNf])]
        rw [hpupd, hif]

/-- When every record matches either the pre-existing rows or an inserted
row, the insert fold performs no insert: it replays the batch onto the
inserted rows. -/
lemma ifold_upd_only {u : Nat} {S : List Task} (B : List TaskData) :
    ∀ N : List Task,
      (∀ d ∈ B, existsMatch u S d = true ∨ existsMatch u N d = true) →
      (∀ d ∈ B, existsMatch u S d = true → ∀ t ∈ N, ¬ SameKey u d t) →
      ifold u S N B = N.map fun t => pfold u t B := by
  induction B with
  | nil =>
    intro N _ _
    rw [ifold_nil]
    simp [pfold]
  | cons d B ih =>
    intro N h1 h2
    have h1' := fun d' hd' => h1 d' (List.mem_cons_of_mem d hd')
    have h2' := fun d' hd' => h2 d' (List.mem_cons_of_mem d hd')
    rw [ifold_cons]
    by_cases hS : existsMatch u S d = true
    · rw [if_pos hS, ih N h1' h2']
      refine List.map_congr_left fun t ht => ?_
      rw [pfold_cons,
        updMatched_neg (h2 d (List.mem_cons_self d B) hS t ht)]
    · have hN : existsMatch u N d = true :=
        (h1 d (List.mem_cons_self d B)).resolve_left hS
      rw [if_neg hS, if_pos hN]
      have h1'' : ∀ d' ∈ B, existsMatch u S d' = true ∨
          existsMatch u (umap u N d) d' = true := by
        intro d' hd'
        rw [existsMatch_congr (forall₂_keyEq_umap u N d)]
        exact h1' d' hd'
      have h2'' : ∀ d' ∈ B, existsMatch u S d' = true →
          ∀ t' ∈ umap u N d, ¬ SameKey u d' t' := by
        intro d' hd' hS' t' ht'
        obtain ⟨t, ht, rfl⟩ := List.mem_map.mp ht'
        rw [sameKey_congr (updMatched_keyEq u d t)]
        exact h2' d' hd' hS' t ht
      rw [ih (umap u N d) h1'' h2'']
      unfold umap
      rw [List.map_map]
      rfl

/-- A record whose key coincides with the key of `newTask d'` matches the
same rows as `d'`. -/
lemma sameKey_data_trans {u : Nat} {d d' : TaskData} {t : Task}
    (h : SameKey u d (newTask d')) (ht : SameKey u d t) : SameKey u d' t :=
  ⟨ht.1, ht.2.1.trans h.2.1.symm, ht.2.2.trans h.2.2.symm⟩

lemma existsMatch_of_key_shared {u : Nat} {d d' : TaskData} {X : List Task}
    (h : SameKey u d (newTask d')) (hex : existsMatch u X d = true) :
    existsMatch u X d' = true := by
  rw [existsMatch_true_iff] at hex ⊢
  obtain ⟨t, ht, hsk⟩ := hex
  exact ⟨t, ht, sameKey_data_trans h hsk⟩

lemma sameKey_newTask_symm {u : Nat} {d d' : TaskData}
    (h : SameKey u d (newTask d')) (hud : d.user_id = u) :
    SameKey u d' (newTask d) :=
  ⟨hud, h.2.1.symm, h.2.2.symm⟩

lemma filter_match_congr {u : Nat} {m m' : Task} (h : keyEq m m')
    (P : List TaskData) :
    P.filter (fun d' => decide (SameKey u d' m)) =
      P.filter (fun d' => decide (SameKey u d' m')) := by
  refine List.filter_congr fun d' _ => ?_
  simp [sameKey_congr h]

/-- Every row produced by the insert fold is the fold of the record that
inserted it followed by the records that updated it, and those are exactly
the records of the processed batch matching its key.  `P` is the already
processed prefix of the batch. -/
lemma ifold_replay {u : Nat} {S : List Task} (B : List TaskData) :
    ∀ (P : List TaskData) (N : List Task),
      (∀ d ∈ B, d.user_id = u) →
      (∀ m ∈ N, ∃ d0 L, m = foldUpd (newTask d0) L ∧
        P.filter (fun d' => decide (SameKey u d' m)) = d0 :: L) →
      (∀ d ∈ B, existsMatch u S d = false → existsMatch u N d = false →
        P.filter (fun d' => decide (SameKey u d' (newTask d))) = []) →
      (∀ d ∈ B, existsMatch u S d = true → ∀ t ∈ N, ¬ SameKey u d t) →
      ∀ m ∈ ifold u S N B, ∃ d0 L, m = foldUpd (newTask d0) L ∧
        (P ++ B).filter (fun d' => decide (SameKey u d' m)) = d0 :: L := by
  induction B with
  | nil =>
    intro P N _ HN _ _ m hm
    rw [ifold_nil] at hm
    simpa using HN m hm
  | cons d B ih =>
    intro P N huid HN HNEW HSN
    have hud : d.user_id = u := huid d (List.mem_cons_self d B)
    have huid' := fun d' hd' => huid d' (List.mem_cons_of_mem d hd')
    have hassoc : P ++ d :: B = (P ++ [d]) ++ B := by simp
    rw [ifold_cons, hassoc]
    by_cases hS : existsMatch u S d = true
    · rw [if_pos hS]
      refine ih (P ++ [d]) N huid' ?_ ?_ ?_
      · intro m hm
        obtain ⟨d0, L, hmeq, hfil⟩ := HN m hm
        refine ⟨d0, L, hmeq, ?_⟩
        rw [List.filter_append, hfil]
        have hnil : List.filter (fun d' => decide (SameKey u d' m)) [d] = [] := by
          simp [HSN d (List.mem_cons_self d B) hS m hm]
        rw [hnil, List.append_nil]
      · intro d' hd' hS' hN'
        rw [List.filter_append,
          HNEW d' (List.mem_cons_of_mem d hd') hS' hN', List.nil_append]
        have hno : ¬ SameKey u d (newTask d') := by
          intro hkey
          have hcon := existsMatch_of_key_shared hkey hS
          rw [hS'] at hcon
          cases hcon
        simp [hno]
      · intro d' hd' hS' t ht
        exact HSN d' (List.mem_cons_of_mem d hd') hS' t ht
    · by_cases hN : existsMatch u N d = true
      · rw [if_neg hS, if_pos hN]
        refine ih (P ++ [d]) (umap u N d) huid' ?_ ?_ ?_
        · intro m' hm'
          obtain ⟨t, ht, rfl⟩ := List.mem_map.mp hm'
          obtain ⟨d0, L, hteq, hfil⟩ := HN t ht
          by_cases hmatch : SameKey u d t
          · refine ⟨d0, L ++ [d], ?_, ?_⟩
            · rw [updMatched_pos hmatch, hteq, foldUpd_append]
              rfl
            · have hkey : keyEq (updMatched u d t) t := updMatched_keyEq u d t
              rw [List.filter_append, filter_match_congr hkey P, hfil]
              have hone : List.filter
                  (fun d' => decide (SameKey u d' (updMatched u d t))) [d] =
                  [d] := by
                simp [(sameKey_congr hkey u d).mpr hmatch]
              rw [hone]
              simp
          · refine ⟨d0, L, by rw [updMatched_neg hmatch]; exact hteq, ?_⟩
            rw [updMatched_neg hmatch, List.filter_append, hfil]
            have hnil : List.filter (fun d' => decide (SameKey u d' t)) [d] =
                [] := by simp [hmatch]
            rw [hnil, List.append_nil]
        · intro d' hd' hS' hN'
          rw [existsMatch_congr (forall₂_keyEq_umap u N d)] at hN'
          rw [List.filter_append,
            HNEW d' (List.mem_cons_of_mem d hd') hS' hN', List.nil_append]
          have hno : ¬ SameKey u d (newTask d') := by
            intro hkey
            have hcon := existsMatch_of_key_shared hkey hN
            rw [hN'] at hcon
            cases hcon
          simp [hno]
        · intro d' hd' hS' t' ht'
          obtain ⟨t, ht, rfl⟩ := List.mem_map.mp ht'
          rw [sameKey_congr (updMatched_keyEq u d t)]
          exact HSN d' (List.mem_cons_of_mem d hd') hS' t ht
      · have hSf : existsMatch u S d = false := Bool.eq_false_iff.mpr hS
        have hNf : existsMatch u N d = false := Bool.eq_false_iff.mpr hN
        rw [if_neg hS, if_neg hN]
        refine ih (P ++ [d]) (N ++ [newTask d]) huid' ?_ ?_ ?_
        · intro m hm
          rcases List.mem_append.mp hm with hm | hm
          · obtain ⟨d0, L, hmeq, hfil⟩ := HN m hm
            refine ⟨d0, L, hmeq, ?_⟩
            rw [List.filter_append, hfil]
            have hnom : ¬ SameKey u d m :=
              (existsMatch_false_iff u N d).mp hNf m hm
            have hnil : List.filter (fun d' => decide (SameKey u d' m)) [d] =
                [] := by simp [hnom]
            rw [hnil, List.append_nil]
          · rw [List.mem_singleton] at hm
            subst hm
            refine ⟨d, [], rfl, ?_⟩
            rw [List.filter_append,
              HNEW d (List.mem_cons_self d B) hSf hNf, List.nil_append]
            simp [sameKey_newTask_self hud]
        · intro d' hd' hS' hN'
          rw [existsMatch_append] at hN'
          have hN'N : existsMatch u N d' = false :=
            (Bool.or_eq_false_iff.mp hN').1
          have hN'new : existsMatch u [newTask d] d' = false :=
            (Bool.or_eq_false_iff.mp hN').2
          rw [List.filter_append,
            HNEW d' (List.mem_cons_of_mem d hd') hS' hN'N, List.nil_append]
          have hno : ¬ SameKey u d (newTask d') := by
            intro hkey
            have h1 : SameKey u d' (newTask d) := sameKey_newTask_symm hkey hud
            have hcon : existsMatch u [newTask d] d' = true := by
              rw [existsMatch_true_iff]
              exact ⟨newTask d, List.mem_singleton_self _, h1⟩
            rw [hN'new] at hcon
            cases hcon
          simp [hno]
        · intro d' hd' hS' t ht
          rcases List.mem_append.mp ht with ht | ht
          · exact HSN d' (List.mem_cons_of_mem d hd') hS' t ht
          · rw [List.mem_singleton] at ht
            subst ht
            intro hkey
            have hcon := existsMatch_of_key_shared hkey hS'
            rw [hSf] at hcon
            cases hcon

/-- C1.  Reconciliation is idempotent: for a store satisfying the identity
uniqueness invariant and a batch of normalized records carrying non-null
external ids (stamped with the synced user), running the upsert loop twice
with the identical batch leaves the persisted store exactly as one run
does, and the resulting store still has at most one row per
`(user_id, source_type, source_id)` identity key. -/
theorem c1_sync_reconcile_idempotent (u : Nat) (S : List Task)
    (B : List TaskData) (hinv : StoreInv S)
    (hsome : ∀ d ∈ B, d.source_id.isSome) (hu : ∀ d ∈ B, d.user_id = u) :
    reconcile u (reconcile u S B) B = reconcile u S B ∧
      StoreInv (reconcile u S B) := by
  have hinv' : StoreInv (S ++ []) := by simpa using hinv
  have hchar := reconcile_char u B S [] hinv' hsome hu
  rw [List.append_nil] at hchar
  set TS := pupdAll u S B with hTS
  set TN := ifold u S [] B with hTN
  have hinvT : StoreInv (reconcile u S B) := storeInv_reconcile B S hinv hsome hu
  refine ⟨?_, hinvT⟩
  have hinvT' : StoreInv (TS ++ TN) := by
    rw [← hchar]
    exact hinvT
  have hchar2 := reconcile_char u B TS TN hinvT' hsome hu
  have hsat : ∀ d ∈ B, existsMatch u (TS ++ TN) d = true := by
    intro d hd
    rw [← hchar]
    exact reconcile_saturated B S hu d hd
  have hor : ∀ d ∈ B, existsMatch u TS d = true ∨ existsMatch u TN d = true := by
    intro d hd
    have h := hsat d hd
    rw [existsMatch_append] at h
    by_cases h1 : existsMatch u TS d = true
    · exact Or.inl h1
    · right
      rw [Bool.eq_false_iff.mpr h1, Bool.false_or] at h
      exact h
  have hexcl : ∀ d ∈ B, existsMatch u TS d = true →
      ∀ t ∈ TN, ¬ SameKey u d t := by
    intro d hd hTSd t ht hkey
    obtain ⟨t1, ht1, hk1⟩ := (existsMatch_true_iff u TS d).mp hTSd
    exact (List.pairwise_append.mp hinvT').2.2 t1 ht1 t ht
      (dupKey_of_sameKey (hsome d hd) hk1 hkey)
  have hTSfix : pupdAll u TS B = TS := by
    rw [hTS]
    unfold pupdAll
    rw [List.map_map]
    exact List.map_congr_left fun t _ => pfold_idem u t B
  have hTNfix : ifold u TS TN B = TN := by
    rw [ifold_upd_only B TN hor hexcl]
    have hfix : ∀ m ∈ TN, pfold u m B = m := by
      intro m hm
      rw [hTN] at hm
      obtain ⟨d0, L, hmeq, hfil⟩ := ifold_replay B [] [] hu
        (by intro m' hm'; simp at hm')
        (by intro d' _ _ _; rfl)
        (by intro d' _ _ t' ht'; simp at ht') m hm
      rw [List.nil_append] at hfil
      rw [pfold_filter u B m, hfil, hmeq]
      exact foldUpd_absorb d0 L
    calc TN.map (fun t => pfold u t B) = TN.map fun t => t :=
        List.map_congr_left hfix
      _ = TN := by simp
  rw [hchar, hchar2, hTSfix, hTNfix]

def c1data : TaskData :=
  { user_id := 1, title := "Assignment 1", description := "",
    task_type := TaskType.assignment, source_type := SourceType.canvas,
    source_id := some "42", due_date := some 86400, has_start_date := false,
    start_date := none, priority := 3, task_metadata := "m" }

theorem c1_witness :
    reconcile 1 (reconcile 1 [] [c1data]) [c1data] = reconcile 1 [] [c1data] ∧
      StoreInv (reconcile 1 [] [c1data]) :=
  c1_sync_reconcile_idempotent 1 [] [c1data] (by decide) (by decide) (by decide)

end Backend
